import Mathlib

/-!
# Modem diagnostic log collection (`dumpstate/DumpstateDevice.cpp`)

A shallow embedding of `DumpstateDevice::dumpDiagLogs`, `DumpstateDevice::dumpModem`,
`DumpTouch` and `DumpstateDevice::dumpstateBoard`.

The functions of the source are sequences of calls into the platform (property store,
sub-processes, file system, file descriptors).  Each function is embedded as the list of
calls it performs, in program order (`Event`), as a function of what the platform answers
(`Env`).  Logging (`ALOGD`, `ALOGE`), `free` and the destructor of `unique_fd` are not recorded.

* `std::string` is `String`; `.empty()` is `empty`.
* `int`, `ssize_t` are `Int`; no arithmetic of the source can overflow (the only counter,
  `copiedFiles`, is bounded by `num_entries`, itself an `int`).
* The `while (1)` copy loop may run for ever when the reads never stop, and so may the
  `TEMP_FAILURE_RETRY` of its `read` and of its `write` when the call is interrupted again and
  again; they are embedded with fuel and return `none` when the fuel is used up before the
  loop has ended.  Every call of `read` and of `write` is recorded, the repeated ones included.
* `TEMP_FAILURE_RETRY(open(...))` (line 191) is recorded as one call, whose result is the
  value of the expression: what the first `open` that is not interrupted returns.
-/

namespace DumpstateDevice

/-! ## Constants of the source -/

def MODEM_LOG_PREFIX_PROPERTY : String := "ro.radio.log_prefix"
def MODEM_LOG_LOC_PROPERTY : String := "ro.radio.log_loc"
def MODEM_LOGGING_SWITCH : String := "persist.radio.smlog_switch"
def DIAG_MDLOG_PERSIST_PROPERTY : String := "persist.vendor.sys.modem.diag.mdlog"
def DIAG_MDLOG_PROPERTY : String := "vendor.sys.modem.diag.mdlog"
def DIAG_MDLOG_STATUS_PROPERTY : String := "vendor.sys.modem.diag.mdlog_on"
def DIAG_MDLOG_NUMBER_BUGREPORT : String := "persist.vendor.sys.modem.diag.mdlog_br_num"
def UFS_BOOTDEVICE : String := "ro.boot.bootdevice"
def DIAG_LOG_PREFIX : String := "diag_log_"

/-! ## Calls into the platform -/

/-- One byte of file content. -/
abbrev Byte := Fin 256

/-- The `CommandOptions` the source builds: `CommandOptions::WithTimeout(n).Build()`, or the
default argument of `RunCommandToFd`. -/
inductive CommandOptions where
  | WithTimeout (seconds : Nat)
  | DEFAULT
  deriving DecidableEq, Repr

/-- The `errno` value `EINTR`: the call was interrupted by a signal. -/
def EINTR : Nat := 4

/-- What one call `read(fd, buffer, count)` answers: the bytes it stored at the start of the
buffer (the value returned is their number, `0` at end of file), or a failure (the value
returned is `-1`) and the `errno` it sets. -/
inductive ReadResult where
  | bytes (data : List Byte)
  | failure (errno : Nat)
  deriving DecidableEq, Repr

/-- The value `read` returns. -/
def ReadResult.bytes_read : ReadResult → Int
  | .bytes data => (data.length : Int)
  | .failure _ => -1

/-- The bytes at the start of the buffer after the `read`. -/
def ReadResult.stored : ReadResult → List Byte
  | .bytes data => data
  | .failure _ => []

/-- The `errno` a failed `read` has set (`0` stands for the value, not looked at, that a
`read` which did not fail leaves). -/
def ReadResult.errno : ReadResult → Nat
  | .bytes _ => 0
  | .failure errno => errno

/-- The test of `TEMP_FAILURE_RETRY` on the result of a `read`: `_rc == -1 && errno == EINTR`. -/
def ReadResult.interrupted (result : ReadResult) : Bool :=
  decide (result.bytes_read = -1) && decide (result.errno = EINTR)

/-- A call into the platform, with its arguments and (where the source looks at it) its answer. -/
inductive Event where
  | GetProperty (key dflt value : String)
  | GetBoolProperty (key : String) (dflt value : Bool)
  | GetIntProperty (key : String) (dflt value : Int)
  | SetProperty (key value : String)
  | IsUserBuild (result : Bool)
  | access (path mode : String) (result : Int)
  | RunCommandToFd (fd : Int) (title : String) (full_command : List String)
      (options : CommandOptions)
  | DumpFileToFd (fd : Int) (title path : String)
  | sleep (seconds : Nat)
  | scandir (dir : String) (result : Option (List String))
  | open_ (path : String) (result : Int)
  | read (fd : Int) (count : Nat) (result : ReadResult)
  | write (fd : Int) (buf : List Byte) (result : Int) (errno : Nat)
  deriving DecidableEq, Repr

/-- Translation of `std::string::empty`. -/
def empty (s : String) : Bool := s.length == 0

/-- C `strncmp` on two NUL-terminated strings, each given without its terminator: compares at
most `n` characters, stops at the first difference or at a common NUL, and returns the
difference of the two characters there. -/
def strncmp : List Char → List Char → Nat → Int
  | _, _, 0 => 0
  | [], [], _ + 1 => 0
  | [], c :: _, _ + 1 => 0 - (c.toNat : Int)
  | c :: _, [], _ + 1 => (c.toNat : Int) - 0
  | c₁ :: s₁, c₂ :: s₂, n + 1 =>
    if c₁ = c₂ then (if c₁.toNat = 0 then 0 else strncmp s₁ s₂ n)
    else (c₁.toNat : Int) - (c₂.toNat : Int)

/-! ## `dumpDiagLogs` -/

/-- The copy command of one entry (source lines 86-93). -/
def cpDiagLog (fd : Int) (srcDir destDir d_name : String) : Event :=
  let options := CommandOptions.WithTimeout 120
  let srcLogFile := srcDir ++ "/" ++ d_name
  let destLogFile := destDir ++ "/" ++ d_name
  let copyCmd := "/vendor/bin/cp " ++ srcLogFile ++ " " ++ destLogFile
  Event.RunCommandToFd fd "CP DIAG LOGS" ["/vendor/bin/sh", "-c", copyCmd] options

/-- The loop `for (int i = num_entries - 1; i >= 0; i--)` of `dumpDiagLogs`: the first argument
lists `dirent_list[i]->d_name` in the order the loop visits them (from the last index down to
`0`), the second is `copiedFiles`. -/
def dumpDiagLogsLoop (fd : Int) (srcDir destDir : String) (maxFileNum : Int) :
    List String → Int → List Event
  | [], _ => []
  | d_name :: rest, copiedFiles =>
    if 0 ≠ strncmp d_name.data DIAG_LOG_PREFIX.data DIAG_LOG_PREFIX.length then
      dumpDiagLogsLoop fd srcDir destDir maxFileNum rest copiedFiles
    else if copiedFiles ≥ maxFileNum ∧ maxFileNum ≠ -1 then
      dumpDiagLogsLoop fd srcDir destDir maxFileNum rest copiedFiles
    else
      cpDiagLog fd srcDir destDir d_name ::
        dumpDiagLogsLoop fd srcDir destDir maxFileNum rest (copiedFiles + 1)

/-- Translation of `DumpstateDevice::dumpDiagLogs`.  `scandirResult` is what
`scandir(srcDir, &dirent_list, 0, alphasort)` leaves in `dirent_list` (`none`: it stays `NULL`;
`some l`: the names, `num_entries = l.length`), `maxFileNum` is what
`GetIntProperty(DIAG_MDLOG_NUMBER_BUGREPORT, 100)` answers. -/
def dumpDiagLogs (scandirResult : Option (List String)) (maxFileNum : Int)
    (fd : Int) (srcDir destDir : String) : List Event :=
  Event.scandir srcDir scandirResult ::
    match scandirResult with
    | none => []
    | some dirent_list =>
      if (dirent_list.length : Int) ≤ 0 then []
      else
        Event.GetIntProperty DIAG_MDLOG_NUMBER_BUGREPORT 100 maxFileNum ::
          dumpDiagLogsLoop fd srcDir destDir maxFileNum dirent_list.reverse 0

/-! ## `dumpModem` -/

/-- What the platform answers during one run.  A property that the source reads once is given
by its value.  The status property of the diag logger is read several times and may change
between two reads: it is given by the sequence of the answers, and so are the results of the
successive `read` and `write` calls of the copy loop. -/
structure Env where
  /-- `GetProperty(MODEM_LOG_LOC_PROPERTY, "")` -/
  modemLogDir : String
  /-- `PropertiesHelper::IsUserBuild()` -/
  IsUserBuild : Bool
  /-- `GetBoolProperty(MODEM_LOGGING_SWITCH, false)` -/
  smlogSwitch : Bool
  /-- `access("/vendor/bin/smlog_dump", X_OK)` -/
  smlogDumpAccess : Int
  /-- `GetBoolProperty(DIAG_MDLOG_PERSIST_PROPERTY, false)` -/
  diagLogEnabled : Bool
  /-- the `k`-th `GetBoolProperty(DIAG_MDLOG_STATUS_PROPERTY, false)` of the run, from `0` -/
  mdlogStatus : Nat → Bool
  /-- what `scandir` leaves in `dirent_list` -/
  scandirResult : Option (List String)
  /-- `GetIntProperty(DIAG_MDLOG_NUMBER_BUGREPORT, 100)` -/
  maxFileNum : Int
  /-- `GetProperty(MODEM_LOG_PREFIX_PROPERTY, "")` -/
  filePrefix : String
  /-- `TEMP_FAILURE_RETRY(open(modemLogCombined, O_RDONLY | O_CLOEXEC | O_NONBLOCK))`: the
  value of the expression, a descriptor or the `-1` of an `open` that failed otherwise than
  with `EINTR` -/
  fdLog : Int
  /-- the `k`-th call `read(fdLog, buffer.data(), buffer.size())` of the run, from `0` -/
  reads : Nat → ReadResult
  /-- the value the `k`-th call `write(fdModem, buffer.data(), bytes_read)` returns, from `0` -/
  writes : Nat → Int
  /-- the `errno` after the `k`-th call of `write`, looked at when it returned `-1` -/
  writeErrno : Nat → Nat
  /-- `GetProperty(UFS_BOOTDEVICE, "")` -/
  bootdev : String
  /-- `access("/sys/android_touch", R_OK)` -/
  androidTouchAccess : Int
  /-- `access("/sys/class/input/ftm4_touch", R_OK)` -/
  ftm4TouchAccess : Int

/-- The local `options` of `dumpModem` (line 113). -/
def options : CommandOptions := CommandOptions.WithTimeout 120

/-- The local `diagLogDir` of `dumpModem` (line 122). -/
def diagLogDir : String := "/data/vendor/radio/diag_logs/logs"

/-- The local `rilAndNetmgrLogs` of `dumpModem` (lines 123-134). -/
def rilAndNetmgrLogs : List String :=
  [ "/data/vendor/radio/ril_log",
    "/data/vendor/radio/ril_log_old",
    "/data/vendor/netmgr/netmgr_log",
    "/data/vendor/netmgr/netmgr_log_old",
    "/data/vendor/radio/power_anomaly_data.txt",
    "/data/vendor/radio/diag_logs/diag_trace.txt",
    "/data/vendor/radio/diag_logs/diag_trace_old.txt",
    "/data/vendor/ssrlog/ssr_log.txt",
    "/data/vendor/ssrlog/ssr_log_old.txt" ]

/-- The local `modemLogAllDir` of `dumpModem` (line 121). -/
def modemLogAllDir (modemLogDir : String) : String := modemLogDir ++ "/modem_log"

/-- The local `modemLogCombined` of `dumpModem` (line 183). -/
def modemLogCombined (modemLogDir filePrefix : String) : String :=
  modemLogDir ++ "/" ++ filePrefix ++ "all.tar"

/-- Lines 115-137 of `dumpModem`: the two info commands and the creation of the staging
directory. -/
def modemInfo (fd : Int) (modemLogDir : String) : List Event :=
  let modemLogMkDirCmd := "/vendor/bin/mkdir -p " ++ modemLogAllDir modemLogDir
  [ Event.RunCommandToFd fd "MODEM RFS INFO"
      ["/vendor/bin/sh", "-c", "find /data/vendor/rfs/mpss/OEMFI/"] options,
    Event.RunCommandToFd fd "MODEM DIAG SYSTEM PROPERTIES"
      ["/vendor/bin/sh", "-c", "getprop | grep vendor.sys.modem.diag"] options,
    Event.RunCommandToFd fd "MKDIR MODEM LOG" ["/vendor/bin/sh", "-c", modemLogMkDirCmd] options ]

/-- The value of `smlogEnabled` (lines 139-140). -/
def smlogEnabled (env : Env) : Bool := env.smlogSwitch && (env.smlogDumpAccess == 0)

/-- The calls of lines 139-142: `&&` evaluates `access` only when the switch is set. -/
def readSwitches (env : Env) : List Event :=
  [Event.GetBoolProperty MODEM_LOGGING_SWITCH false env.smlogSwitch] ++
  (if env.smlogSwitch then [Event.access "/vendor/bin/smlog_dump" "X_OK" env.smlogDumpAccess]
   else []) ++
  [Event.GetBoolProperty DIAG_MDLOG_PERSIST_PROPERTY false env.diagLogEnabled]

/-- The loop `for (int i = 0; i < 30; i++)` of lines 156-164.  The first argument is the
number of iterations left, the second the index of the next read of the status property. -/
def pollLoop (mdlogStatus : Nat → Bool) : Nat → Nat → List Event
  | 0, _ => []
  | left + 1, k =>
    if !mdlogStatus k then
      [Event.GetBoolProperty DIAG_MDLOG_STATUS_PROPERTY false (mdlogStatus k), Event.sleep 1]
    else
      [Event.GetBoolProperty DIAG_MDLOG_STATUS_PROPERTY false (mdlogStatus k), Event.sleep 1] ++
        pollLoop mdlogStatus left (k + 1)

/-- Lines 147-171 of `dumpModem`: the branch `else if (diagLogEnabled)`. -/
def diagLogBranch (env : Env) (fd : Int) (modemLogDir : String) : List Event :=
  let diagLogStarted := env.mdlogStatus 0
  [Event.GetBoolProperty DIAG_MDLOG_STATUS_PROPERTY false diagLogStarted] ++
  (if diagLogStarted then [Event.SetProperty DIAG_MDLOG_PROPERTY "false"] else []) ++
  pollLoop env.mdlogStatus 30 1 ++
  dumpDiagLogs env.scandirResult env.maxFileNum fd diagLogDir (modemLogAllDir modemLogDir) ++
  (if diagLogStarted then [Event.SetProperty DIAG_MDLOG_PROPERTY "true"] else [])

/-- Lines 144-172 of `dumpModem`. -/
def collectLogs (env : Env) (fd : Int) (modemLogDir : String) : List Event :=
  if smlogEnabled env then
    [Event.RunCommandToFd fd "SMLOG DUMP" ["smlog_dump", "-d", "-o", modemLogAllDir modemLogDir]
      options]
  else if env.diagLogEnabled then diagLogBranch env fd modemLogDir
  else []

/-- The copy command of one auxiliary log (lines 176-177). -/
def cpModemLog (fd : Int) (modemLogDir logFile : String) : Event :=
  let copyCmd := "/vendor/bin/cp " ++ logFile ++ " " ++ modemLogAllDir modemLogDir
  Event.RunCommandToFd fd "CP MODEM LOG" ["/vendor/bin/sh", "-c", copyCmd] options

/-- Lines 174-178 of `dumpModem`: `for (const auto& logFile : rilAndNetmgrLogs)`. -/
def copyRilAndNetmgrLogs (fd : Int) (modemLogDir : String) : List Event :=
  rilAndNetmgrLogs.map (cpModemLog fd modemLogDir)

/-- The test of `TEMP_FAILURE_RETRY` on the result of the `k`-th `write`:
`_rc == -1 && errno == EINTR`. -/
def interruptedWrite (env : Env) (k : Nat) : Bool :=
  decide (env.writes k = -1) && decide (env.writeErrno k = EINTR)

/-- `TEMP_FAILURE_RETRY(read(fdLog, buffer.data(), buffer.size()))` (line 195): the `read` is
called again while it returns `-1` with `errno == EINTR`.  The last argument is the index of
the next call of `read`.  The result is the calls made and the index of the last of them,
whose result is the value of the expression; it is `none` when the call is still interrupted
after `fuel` calls. -/
def retryRead (env : Env) : Nat → Nat → Option (List Event × Nat)
  | 0, _ => none
  | fuel + 1, r =>
    if (env.reads r).interrupted then
      (retryRead env fuel (r + 1)).map fun again =>
        (Event.read env.fdLog 65536 (env.reads r) :: again.1, again.2)
    else some ([Event.read env.fdLog 65536 (env.reads r)], r)

/-- `TEMP_FAILURE_RETRY(write(fdModem, buffer.data(), bytes_read))` (line 204), as `retryRead`:
`buffer` is the first `bytes_read` bytes of the buffer, the last argument the index of the next
call of `write`. -/
def retryWrite (env : Env) (fdModem : Int) (buffer : List Byte) :
    Nat → Nat → Option (List Event × Nat)
  | 0, _ => none
  | fuel + 1, w =>
    if interruptedWrite env w then
      (retryWrite env fdModem buffer fuel (w + 1)).map fun again =>
        (Event.write fdModem buffer (env.writes w) (env.writeErrno w) :: again.1, again.2)
    else some ([Event.write fdModem buffer (env.writes w) (env.writeErrno w)], w)

/-- The loop `while (1)` of lines 194-210.  The last two arguments are the indices of the next
call of `read` and of the next call of `write`.  The buffer handed to `write` holds the bytes
the last `read` stored, `bytes_read` of them.  The result is `none` when the loop, or one of
the two repeated calls, has not ended within `fuel` rounds. -/
def streamLoop (env : Env) (fdModem : Int) : Nat → Nat → Nat → Option (List Event)
  | 0, _, _ => none
  | fuel + 1, r, w =>
    match retryRead env (fuel + 1) r with
    | none => none
    | some (readCalls, r') =>
      let bytes_read := (env.reads r').bytes_read
      if bytes_read = 0 then some readCalls
      else if bytes_read < 0 then some readCalls
      else
        match retryWrite env fdModem (env.reads r').stored (fuel + 1) w with
        | none => none
        | some (writeCalls, w') =>
          let result := env.writes w'
          if result ≠ bytes_read then some (readCalls ++ writeCalls)
          else
            (streamLoop env fdModem fuel (r' + 1) (w' + 1)).map
              (readCalls ++ writeCalls ++ ·)

/-- The two removal commands of lines 213-215. -/
def cleanup (fd : Int) (modemLogDir filePrefix : String) : List Event :=
  let modemLogClearCmd := "/vendor/bin/rm -r " ++ modemLogAllDir modemLogDir
  [ Event.RunCommandToFd fd "RM MODEM DIR" ["/vendor/bin/sh", "-c", modemLogClearCmd] options,
    Event.RunCommandToFd fd "RM LOG" ["/vendor/bin/rm", modemLogCombined modemLogDir filePrefix]
      options ]

/-- Lines 183-191 of `dumpModem`: the archive is built, made accessible and opened. -/
def archive (env : Env) (fd : Int) (modemLogDir filePrefix : String) : List Event :=
  let modemLogTarCmd := "/vendor/bin/tar cvf " ++ modemLogCombined modemLogDir filePrefix ++
    " -C " ++ modemLogAllDir modemLogDir ++ " ."
  let modemLogPermCmd := "/vendor/bin/chmod a+rw " ++ modemLogCombined modemLogDir filePrefix
  [ Event.RunCommandToFd fd "TAR LOG" ["/vendor/bin/sh", "-c", modemLogTarCmd] options,
    Event.RunCommandToFd fd "CHG PERM" ["/vendor/bin/sh", "-c", modemLogPermCmd] options,
    Event.open_ (modemLogCombined modemLogDir filePrefix) env.fdLog ]

/-- Lines 193-211 of `dumpModem`: the copy loop runs when the archive could be opened. -/
def stream (fuel : Nat) (env : Env) (fdModem : Int) : Option (List Event) :=
  if env.fdLog ≥ 0 then streamLoop env fdModem fuel 0 0 else some []

/-- Lines 182-216 of `dumpModem`: the block `if (!filePrefix.empty())`. -/
def archiveBranch (fuel : Nat) (env : Env) (fd fdModem : Int) (modemLogDir : String) :
    Option (List Event) :=
  let filePrefix := env.filePrefix
  if !empty filePrefix then
    (stream fuel env fdModem).map fun copied =>
      archive env fd modemLogDir filePrefix ++ copied ++ cleanup fd modemLogDir filePrefix
  else some []

/-- The calls of `dumpModem` from line 111 to line 180, when the gate is passed. -/
def collect (env : Env) (fd : Int) (modemLogDir : String) : List Event :=
  modemInfo fd modemLogDir ++ readSwitches env ++ collectLogs env fd modemLogDir ++
    copyRilAndNetmgrLogs fd modemLogDir ++
    [Event.GetProperty MODEM_LOG_PREFIX_PROPERTY "" env.filePrefix]

/-- Translation of `DumpstateDevice::dumpModem`. -/
def dumpModem (fuel : Nat) (env : Env) (fd fdModem : Int) : Option (List Event) :=
  let modemLogDir := env.modemLogDir
  if empty modemLogDir then some [Event.GetProperty MODEM_LOG_LOC_PROPERTY "" modemLogDir]
  else if !env.IsUserBuild then
    (archiveBranch fuel env fd fdModem modemLogDir).map fun archived =>
      [Event.GetProperty MODEM_LOG_LOC_PROPERTY "" modemLogDir, Event.IsUserBuild env.IsUserBuild]
        ++ collect env fd modemLogDir ++ archived
  else
    some [Event.GetProperty MODEM_LOG_LOC_PROPERTY "" modemLogDir,
      Event.IsUserBuild env.IsUserBuild]

/-! ## `dumpstateBoard` -/

/-- A `native_handle_t`: `numFds` is the length of `fds`, and `data[i]` for `i < numFds` is
`fds[i]`; the integers that follow the descriptors in `data` are `ints`. -/
structure native_handle where
  fds : List Int
  ints : List Int
  deriving DecidableEq, Repr

/-- A `hidl_handle`: `none` is `nullptr`. -/
abbrev hidl_handle := Option native_handle

/-- Translation of `DumpTouch`. -/
def DumpTouch (env : Env) (fd : Int) : List Event :=
  [Event.access "/sys/android_touch" "R_OK" env.androidTouchAccess] ++
  (if env.androidTouchAccess = 0 then
    [ Event.DumpFileToFd fd "Synaptics touch firmware version" "/sys/android_touch/vendor",
      Event.DumpFileToFd fd "Synaptics touch firmware config" "/sys/android_touch/config" ]
   else []) ++
  [Event.access "/sys/class/input/ftm4_touch" "R_OK" env.ftm4TouchAccess] ++
  (if env.ftm4TouchAccess = 0 then
    [Event.DumpFileToFd fd "STM touch firmware config" "/sys/class/input/ftm4_touch/version"]
   else [])

/-- Lines 254-289 of `dumpstateBoard`: the dumps that follow the modem collection. -/
def boardDumps (env : Env) (fd : Int) : List Event :=
  let bootdev := env.bootdev
  [ Event.DumpFileToFd fd "SoC serial number" "/sys/devices/soc0/serial_number",
    Event.DumpFileToFd fd "CPU present" "/sys/devices/system/cpu/present",
    Event.DumpFileToFd fd "CPU online" "/sys/devices/system/cpu/online",
    Event.DumpFileToFd fd "UFS model" "/sys/block/sda/device/model",
    Event.DumpFileToFd fd "UFS rev" "/sys/block/sda/device/rev",
    Event.DumpFileToFd fd "UFS size" "/sys/block/sda/size",
    Event.GetProperty UFS_BOOTDEVICE "" bootdev ] ++
  (if !empty bootdev then
    let ufs_health := "for f in $(find /sys/devices/platform/soc/" ++ bootdev ++
      "/health -type f); do if [[ -r $f && -f $f ]]; then echo --- $f; cat $f; echo ''; fi; done"
    [Event.RunCommandToFd fd "UFS health" ["/vendor/bin/sh", "-c", ufs_health]
      CommandOptions.DEFAULT]
   else []) ++
  [ Event.DumpFileToFd fd "F2FS" "/sys/kernel/debug/f2fs/status",
    Event.DumpFileToFd fd "INTERRUPTS" "/proc/interrupts",
    Event.DumpFileToFd fd "Sleep Stats" "/sys/power/system_sleep/stats",
    Event.DumpFileToFd fd "Power Management Stats" "/sys/power/rpmh_stats/master_stats",
    Event.DumpFileToFd fd "WLAN Power Stats" "/d/wlan0/power_stats",
    Event.DumpFileToFd fd "LL-Stats" "/d/wlan0/ll_stats",
    Event.DumpFileToFd fd "ICNSS Stats" "/d/icnss/stats",
    Event.DumpFileToFd fd "SMD Log" "/d/ipc_logging/smd/log",
    Event.RunCommandToFd fd "ION HEAPS" ["/vendor/bin/sh", "-c",
      "for d in $(ls -d /d/ion/*); do for f in $(ls $d); do echo --- $d/$f; cat $d/$f; done; done"]
      CommandOptions.DEFAULT,
    Event.DumpFileToFd fd "dmabuf info" "/d/dma_buf/bufinfo",
    Event.RunCommandToFd fd "Temperatures" ["/vendor/bin/sh", "-c",
      "for f in `ls /sys/class/thermal` ; do type=`cat /sys/class/thermal/$f/type` ; temp=`cat /sys/class/thermal/$f/temp` ; echo \"$type: $temp\" ; done"]
      CommandOptions.DEFAULT,
    Event.DumpFileToFd fd "cpu0-1 time-in-state"
      "/sys/devices/system/cpu/cpu0/cpufreq/stats/time_in_state",
    Event.RunCommandToFd fd "cpu0-1 cpuidle" ["/vendor/bin/sh", "-c",
      "for d in $(ls -d /sys/devices/system/cpu/cpu0/cpuidle/state*); do echo \"$d: `cat $d/name` `cat $d/desc` `cat $d/time` `cat $d/usage`\"; done"]
      CommandOptions.DEFAULT,
    Event.DumpFileToFd fd "cpu2-3 time-in-state"
      "/sys/devices/system/cpu/cpu2/cpufreq/stats/time_in_state",
    Event.RunCommandToFd fd "cpu2-3 cpuidle" ["/vendor/bin/sh", "-c",
      "for d in $(ls -d /sys/devices/system/cpu/cpu2/cpuidle/state*); do echo \"$d: `cat $d/name` `cat $d/desc` `cat $d/time` `cat $d/usage`\"; done"]
      CommandOptions.DEFAULT,
    Event.DumpFileToFd fd "MDP xlogs" "/data/vendor/display/mdp_xlog",
    Event.DumpFileToFd fd "TCPM logs" "/d/tcpm/usbpd0",
    Event.DumpFileToFd fd "PD Engine" "/d/pd_engine/usbpd0",
    Event.DumpFileToFd fd "smblib-usb logs" "/d/ipc_logging/smblib/log",
    Event.DumpFileToFd fd "ipc-local-ports" "/d/msm_ipc_router/dump_local_ports",
    Event.DumpFileToFd fd "WLAN FW Log Symbol Table" "/vendor/firmware/Data.msc" ] ++
  DumpTouch env fd ++
  [ Event.RunCommandToFd fd "USB Device Descriptors" ["/vendor/bin/sh", "-c",
      "cd /sys/bus/usb/devices/1-1 && cat product && cat bcdDevice; cat descriptors | od -t x1 -w16 -N96"]
      CommandOptions.DEFAULT,
    Event.RunCommandToFd fd "QSEE logs" ["/vendor/bin/sh", "-c", "cat /d/tzdbg/qsee_log"]
      CommandOptions.DEFAULT ]

/-- Translation of `DumpstateDevice::dumpstateBoard`. -/
def dumpstateBoard (fuel : Nat) (env : Env) (handle : hidl_handle) : Option (List Event) :=
  match handle with
  | none => some []
  | some h =>
    match h.fds with
    | [] => some []
    | fd :: more =>
      if fd < 0 then some []
      else
        let modem : Option (List Event) :=
          match more with
          | [] => some []
          | fdModem :: _ => dumpModem fuel env fd fdModem
        modem.map (· ++ boardDumps env fd)

/-! ## Observations on a sequence of calls -/

/-- The calls that run a command (`RunCommandToFd`). -/
def isCommand : Event → Bool
  | .RunCommandToFd _ _ _ _ => true
  | _ => false

/-- Whether a directory entry name starts with `DIAG_LOG_PREFIX`. -/
def startsWithDiagLog (d_name : String) : Bool :=
  DIAG_LOG_PREFIX.data.isPrefixOf d_name.data

/-- The retention policy in the words of the specification: the entries whose name starts
with the prefix, newest name first (reverse alphabetical order), cut to the first `maxFiles`
of them unless `maxFiles` is `-1`. -/
def retainedDiagLogs (listing : List String) (maxFiles : Int) : List String :=
  let newestFirst := (listing.filter startsWithDiagLog).insertionSort (· ≥ ·)
  if maxFiles = -1 then newestFirst else newestFirst.take maxFiles.toNat

/-- The calls that read the archive. -/
def isRead : Event → Bool
  | .read _ _ _ => true
  | _ => false

/-- The calls that write to a descriptor. -/
def isWrite : Event → Bool
  | .write _ _ _ _ => true
  | _ => false

/-- The calls that set a property. -/
def isSetProperty : Event → Bool
  | .SetProperty _ _ => true
  | _ => false

/-- The bytes that the `write` calls of a run put into the descriptor `fdModem`, in order: a
`write` that returns `r` has accepted the first `r` bytes of its buffer (none for `r ≤ 0`). -/
def channelBytes (fdModem : Int) : List Event → List Byte
  | [] => []
  | Event.write fd buf result _ :: rest =>
    (if fd = fdModem then buf.take result.toNat else []) ++ channelBytes fdModem rest
  | _ :: rest => channelBytes fdModem rest

/-- The calls of an iteration of the copy loop in which no call is interrupted and which
reaches the `write`: the `k`-th `read` and the `k`-th `write` of the run. -/
def copyStep (env : Env) (fdModem : Int) (k : Nat) : List Event :=
  [ Event.read env.fdLog 65536 (env.reads k),
    Event.write fdModem (env.reads k).stored (env.writes k) (env.writeErrno k) ]

/-- The `k`-th `read` returned a positive count and the `k`-th `write` returned that count: an
iteration of the copy loop made of these two calls is followed by another one. -/
def goesOn (env : Env) (k : Nat) : Bool :=
  decide (0 < (env.reads k).bytes_read) && decide (env.writes k = (env.reads k).bytes_read)

/-- An iteration of the copy loop that starts with the `k`-th `read` and the `k`-th `write`
is the last one and no call of it is repeated: the `read` returned `0`, or it failed with an
`errno` other than `EINTR`, or the `write` returned a value other than the count and did not
fail with `EINTR`. -/
def stopsAt (env : Env) (k : Nat) : Bool :=
  decide ((env.reads k).bytes_read = 0) ||
  (decide ((env.reads k).bytes_read < 0) && !(env.reads k).interrupted) ||
  (decide (0 < (env.reads k).bytes_read) && decide (env.writes k ≠ (env.reads k).bytes_read) &&
    !interruptedWrite env k)

/-- The calls of such a last iteration: the `read` alone when it returned `0` or failed, the
`read` and the `write` otherwise. -/
def lastStep (env : Env) (fdModem : Int) (k : Nat) : List Event :=
  if (env.reads k).bytes_read ≤ 0 then [Event.read env.fdLog 65536 (env.reads k)]
  else copyStep env fdModem k

/-- The calls of a copy loop without interrupted call whose iterations `k, ..., k + n - 1` go
on and whose iteration `k + n` is the last one. -/
def streamTrace (env : Env) (fdModem : Int) : Nat → Nat → List Event
  | 0, k => lastStep env fdModem k
  | n + 1, k => copyStep env fdModem k ++ streamTrace env fdModem n (k + 1)

/-- The calls of the iterations `k, ..., k + n - 1` of such a loop. -/
def copySteps (env : Env) (fdModem : Int) : Nat → Nat → List Event
  | 0, _ => []
  | n + 1, k => copyStep env fdModem k ++ copySteps env fdModem n (k + 1)

/-- A `read` that failed and is not repeated: its `errno` is not `EINTR`. -/
def isFailedRead : Event → Bool
  | .read _ _ (.failure errno) => decide (errno ≠ EINTR)
  | _ => false

/-- A `write` that returned a value other than the count it was asked to write. -/
def isShortWrite : Event → Bool
  | .write _ buf result _ => decide (result ≠ (buf.length : Int))
  | _ => false

/-- A `write` that returned a value other than the count it was asked to write and is not
repeated: it did not fail with `EINTR`. -/
def isEndingWrite : Event → Bool
  | .write _ buf result errno =>
    decide (result ≠ (buf.length : Int)) && !(decide (result = -1) && decide (errno = EINTR))
  | _ => false

/-- The calls `read` and `write`. -/
def isIo (e : Event) : Bool := isRead e || isWrite e

/-- The gate of `dumpModem` is passed: the log location is set and the build is not a user
build (lines 106 and 111). -/
def gatePassed (env : Env) : Bool := !empty env.modemLogDir && !env.IsUserBuild

/-- The two calls that evaluate the gate of `dumpModem` (lines 105 and 111). -/
def gate (env : Env) : List Event :=
  [Event.GetProperty MODEM_LOG_LOC_PROPERTY "" env.modemLogDir, Event.IsUserBuild env.IsUserBuild]

/-- The calls of a run of `dumpModem` that reaches the copy loop, up to the `open`. -/
def beforeStream (env : Env) (fd : Int) : List Event :=
  gate env ++ collect env fd env.modemLogDir ++ archive env fd env.modemLogDir env.filePrefix

/-- The titles of the commands `dumpModem` runs before the archive block. -/
def collectTitles : List String :=
  ["MODEM RFS INFO", "MODEM DIAG SYSTEM PROPERTIES", "MKDIR MODEM LOG", "SMLOG DUMP",
    "CP DIAG LOGS", "CP MODEM LOG"]

/-- The kinds of calls `dumpModem` makes before the archive block. -/
def collectCall : Event → Bool
  | .GetProperty _ _ _ => true
  | .GetBoolProperty _ _ _ => true
  | .GetIntProperty _ _ _ => true
  | .IsUserBuild _ => true
  | .access _ _ _ => true
  | .sleep _ => true
  | .scandir _ _ => true
  | .SetProperty key _ => decide (key = DIAG_MDLOG_PROPERTY)
  | .RunCommandToFd _ title _ _ => decide (title ∈ collectTitles)
  | _ => false

/-- The entries `dumpDiagLogs` copies, in the order of the loop, for a cap that is `-1` or not
negative: the matching entries from the last to the first, cut at the cap. -/
def copiedDiagLogs (dirent_list : List String) (maxFileNum : Int) : List String :=
  if maxFileNum = -1 then dirent_list.reverse.filter startsWithDiagLog
  else (dirent_list.reverse.filter startsWithDiagLog).take maxFileNum.toNat

/-- The title of a command. -/
def commandTitle : Event → Option String
  | .RunCommandToFd _ title _ _ => some title
  | _ => none

/-- The calls that open a file. -/
def isOpen : Event → Bool
  | .open_ _ _ => true
  | _ => false

/-- The calls that sleep. -/
def isSleep : Event → Bool
  | .sleep _ => true
  | _ => false

/-- The reads of the status property of the diag logger. -/
def isStatusRead : Event → Bool
  | .GetBoolProperty key _ _ => decide (key = DIAG_MDLOG_STATUS_PROPERTY)
  | _ => false

/-- The seconds a run sleeps in total. -/
def sleptSeconds : List Event → Nat
  | [] => 0
  | Event.sleep seconds :: rest => seconds + sleptSeconds rest
  | _ :: rest => sleptSeconds rest

/-- The titles of the commands of the archive block of `dumpModem`: archive, permissions, and
the two removals. -/
def archiveTitles : List String := ["TAR LOG", "CHG PERM", "RM MODEM DIR", "RM LOG"]

/-- The copy loop of a run, when it is reached, goes on for `n` iterations and ends with the
next one, no call being interrupted: it ends on a `read` that returns `0`, on a `read` that
fails, or on a `write` that does not return the count requested. -/
def loopEndsAt (env : Env) (n : Nat) : Prop :=
  (∀ j, j < n → goesOn env j = true) ∧ stopsAt env n = true

/-- The stop of the diag logger (line 150). -/
def stopDiag : Event := Event.SetProperty DIAG_MDLOG_PROPERTY "false"

/-- The restore of the diag logger to running (line 170). -/
def restoreDiag : Event := Event.SetProperty DIAG_MDLOG_PROPERTY "true"

/-- The call is the restore of the diag logger. -/
def isRestore (e : Event) : Bool := decide (e = restoreDiag)

/-- The copy commands of the auxiliary logs (`CP MODEM LOG`). -/
def isCpModemLog (e : Event) : Bool := decide (commandTitle e = some "CP MODEM LOG")

/-- The copy commands of the diag logs (`CP DIAG LOGS`). -/
def isCpDiagLog (e : Event) : Bool := decide (commandTitle e = some "CP DIAG LOGS")

/-- The two removal commands of the cleanup (`RM MODEM DIR`, `RM LOG`). -/
def isRemoval (e : Event) : Bool :=
  decide (commandTitle e = some "RM MODEM DIR") || decide (commandTitle e = some "RM LOG")

/-- The calls only the diag branch makes: sleeps, property writes and reads of the status
property. -/
def isDiagControl (e : Event) : Bool := isSleep e || isSetProperty e || isStatusRead e

/-- In the sequence of calls, every call satisfying `p` comes before every call satisfying
`q`: no call that follows a `q` call satisfies `p`. -/
def allBefore (p q : Event → Bool) : List Event → Bool
  | [] => true
  | e :: rest => (!q e || rest.all (fun x => !p x)) && allBefore p q rest

/-- The calls of a run of `dumpModem` that passes the gate, up to the choice of the log
source (lines 105-142). -/
def head (env : Env) (fd : Int) : List Event :=
  gate env ++ modemInfo fd env.modemLogDir ++ readSwitches env

/-- The run takes the diag-log branch of `dumpModem`: the gate is passed, the smlog path is
not taken, and the persist flag of the diag logger is set. -/
def diagBranchTaken (env : Env) : Bool :=
  gatePassed env && !smlogEnabled env && env.diagLogEnabled

/-- The read of the log location property, which is the first call of `dumpModem`. -/
def isLogLocRead : Event → Bool
  | .GetProperty key _ _ => decide (key = MODEM_LOG_LOC_PROPERTY)
  | _ => false

/-! ## Environments of the examples -/

/-- A development build with the diag logger running: the logger stops at the third poll, the
archive is read in two chunks and the channel accepts everything. -/
def exampleEnv : Env where
  modemLogDir := "/data/vendor/radio"
  IsUserBuild := false
  smlogSwitch := false
  smlogDumpAccess := -1
  diagLogEnabled := true
  mdlogStatus := fun k => decide (k < 3)
  scandirResult := some ["diag_log_001", "diag_log_002", "diag_log_003", "other_file"]
  maxFileNum := 2
  filePrefix := "sdm845_"
  fdLog := 7
  reads := fun k => if k = 0 then .bytes [1, 2, 3] else if k = 1 then .bytes [4] else .bytes []
  writes := fun k => if k = 0 then 3 else 1
  writeErrno := fun _ => 0
  bootdev := "1d84000.ufshc"
  androidTouchAccess := -1
  ftm4TouchAccess := 0

/-- As `exampleEnv`, but the second `write` to the channel accepts nothing. -/
def shortWriteEnv : Env :=
  { exampleEnv with
    reads := fun k => if k = 0 then .bytes [1, 2, 3] else .bytes [4, 5]
    writes := fun k => if k = 0 then 3 else 0 }

/-- As `exampleEnv`, on a user build. -/
def userBuildEnv : Env := { exampleEnv with IsUserBuild := true }

/-- As `exampleEnv`, without a file name prefix for the archive. -/
def noPrefixEnv : Env := { exampleEnv with filePrefix := "" }

/-- As `exampleEnv`, with the diag logger not running. -/
def notRunningEnv : Env := { exampleEnv with mdlogStatus := fun _ => false }

/-- As `exampleEnv`, with the diag logger seen stopped at the first poll. -/
def quiescedEnv : Env := { exampleEnv with mdlogStatus := fun k => decide (k = 0) }

/-- As `exampleEnv` with an archive read in one chunk, but the first call of `write` is
interrupted (`-1` with `EINTR`) and the second one accepts the chunk. -/
def interruptedWriteEnv : Env :=
  { exampleEnv with
    reads := fun k => if k = 0 then .bytes [1, 2, 3] else .bytes []
    writes := fun k => if k = 0 then -1 else 3
    writeErrno := fun k => if k = 0 then 4 else 0 }

/-- As `shortWriteEnv`, but the first call of `write` and the second call of `read` are
interrupted (`EINTR`) before the calls that `shortWriteEnv` has. -/
def retriedShortWriteEnv : Env :=
  { exampleEnv with
    reads := fun k =>
      if k = 0 then .bytes [1, 2, 3] else if k = 1 then .failure 4 else .bytes [4, 5]
    writes := fun k => if k = 0 then -1 else if k = 1 then 3 else 0
    writeErrno := fun k => if k = 0 then 4 else 0 }

/-! ## `dumpDiagLogs`: retention -/

theorem strncmp_eq_zero_iff (p : List Char) (hp : ∀ c ∈ p, c.toNat ≠ 0) (s : List Char) :
    strncmp s p p.length = 0 ↔ p.isPrefixOf s = true := by
  induction p generalizing s with
  | nil => cases s <;> simp [strncmp]
  | cons c p ih =>
    have hc : c.toNat ≠ 0 := hp c (List.mem_cons_self _ _)
    have hp' : ∀ c ∈ p, c.toNat ≠ 0 := fun x hx => hp x (List.mem_cons_of_mem _ hx)
    cases s with
    | nil =>
      simp only [List.length_cons, strncmp, List.isPrefixOf]
      constructor
      · intro h; omega
      · intro h; cases h
    | cons d s =>
      simp only [List.length_cons, strncmp, List.isPrefixOf]
      by_cases hdc : d = c
      · subst hdc
        simp [hc, ih hp' s]
      · have hne : (d.toNat : Int) - (c.toNat : Int) ≠ 0 := by
          intro h
          apply hdc
          have : d.toNat = c.toNat := by omega
          rw [← Char.ofNat_toNat d, ← Char.ofNat_toNat c, this]
        have hcd : ¬ c = d := fun h => hdc h.symm
        simp [hdc, hne, hcd]

theorem strncmp_startsWith (d_name : String) :
    (0 ≠ strncmp d_name.data DIAG_LOG_PREFIX.data DIAG_LOG_PREFIX.length) ↔
      startsWithDiagLog d_name = false := by
  have h := strncmp_eq_zero_iff DIAG_LOG_PREFIX.data (by decide) d_name.data
  have hl : DIAG_LOG_PREFIX.length = DIAG_LOG_PREFIX.data.length := rfl
  rw [hl]
  unfold startsWithDiagLog
  constructor
  · intro h0
    cases hb : DIAG_LOG_PREFIX.data.isPrefixOf d_name.data with
    | false => rfl
    | true => exact absurd (h.mpr hb).symm h0
  · intro hb h0
    rw [h.mp h0.symm] at hb
    cases hb

/-- With a cap `maxFileNum ≥ 0`, the loop copies the matching entries it visits until
`copiedFiles` reaches the cap. -/
theorem dumpDiagLogsLoop_capped (fd : Int) (srcDir destDir : String) (maxFileNum : Int)
    (hmax : 0 ≤ maxFileNum) (visited : List String) (copiedFiles : Int) :
    dumpDiagLogsLoop fd srcDir destDir maxFileNum visited copiedFiles =
      ((visited.filter startsWithDiagLog).take (maxFileNum - copiedFiles).toNat).map
        (cpDiagLog fd srcDir destDir) := by
  induction visited generalizing copiedFiles with
  | nil => simp [dumpDiagLogsLoop]
  | cons d_name rest ih =>
    unfold dumpDiagLogsLoop
    by_cases hp : startsWithDiagLog d_name = false
    · rw [if_pos ((strncmp_startsWith d_name).mpr hp), ih, List.filter_cons_of_neg (by simp [hp])]
    · rw [if_neg (fun h => hp ((strncmp_startsWith d_name).mp h))]
      have hp' : startsWithDiagLog d_name = true := by simpa using hp
      rw [List.filter_cons_of_pos hp']
      by_cases hc : copiedFiles ≥ maxFileNum ∧ maxFileNum ≠ -1
      · rw [if_pos hc, ih]
        have h0 : (maxFileNum - copiedFiles).toNat = 0 := by omega
        simp [h0]
      · rw [if_neg hc, ih]
        have h1 : (maxFileNum - copiedFiles).toNat = (maxFileNum - (copiedFiles + 1)).toNat + 1 := by
          omega
        rw [h1, List.take_succ_cons, List.map_cons]

/-- With `maxFileNum = -1` the loop copies every matching entry it visits. -/
theorem dumpDiagLogsLoop_unlimited (fd : Int) (srcDir destDir : String)
    (visited : List String) (copiedFiles : Int) :
    dumpDiagLogsLoop fd srcDir destDir (-1) visited copiedFiles =
      (visited.filter startsWithDiagLog).map (cpDiagLog fd srcDir destDir) := by
  induction visited generalizing copiedFiles with
  | nil => simp [dumpDiagLogsLoop]
  | cons d_name rest ih =>
    unfold dumpDiagLogsLoop
    by_cases hp : startsWithDiagLog d_name = false
    · rw [if_pos ((strncmp_startsWith d_name).mpr hp), ih, List.filter_cons_of_neg (by simp [hp])]
    · rw [if_neg (fun h => hp ((strncmp_startsWith d_name).mp h))]
      have hp' : startsWithDiagLog d_name = true := by simpa using hp
      rw [List.filter_cons_of_pos hp', if_neg (by simp), ih, List.map_cons]

theorem filter_isCommand_cpDiagLog (fd : Int) (srcDir destDir : String) (names : List String) :
    (names.map (cpDiagLog fd srcDir destDir)).filter isCommand =
      names.map (cpDiagLog fd srcDir destDir) := by
  rw [List.filter_eq_self]
  intro e he
  obtain ⟨n, -, rfl⟩ := List.mem_map.mp he
  rfl

theorem dumpDiagLogs_commands (fd : Int) (srcDir destDir : String) (dirent_list : List String)
    (maxFileNum : Int) (hmax : 0 ≤ maxFileNum ∨ maxFileNum = -1) :
    (dumpDiagLogs (some dirent_list) maxFileNum fd srcDir destDir).filter isCommand =
      (copiedDiagLogs dirent_list maxFileNum).map (cpDiagLog fd srcDir destDir) := by
  unfold dumpDiagLogs copiedDiagLogs
  by_cases hlen : (dirent_list.length : Int) ≤ 0
  · have : dirent_list = [] := by
      cases dirent_list with
      | nil => rfl
      | cons a l => simp at hlen; omega
    subst this
    simp [isCommand]
  · simp only [hlen, if_false]
    rw [List.filter_cons_of_neg (by simp [isCommand]),
      List.filter_cons_of_neg (by simp [isCommand])]
    by_cases h1 : maxFileNum = -1
    · subst h1
      rw [dumpDiagLogsLoop_unlimited, filter_isCommand_cpDiagLog, if_pos rfl]
    · have h0 : 0 ≤ maxFileNum := by omega
      rw [dumpDiagLogsLoop_capped _ _ _ _ h0, filter_isCommand_cpDiagLog, if_neg h1]
      simp

theorem copiedDiagLogs_eq_retained (listing : List String) (maxFiles : Int)
    (hsorted : listing.Sorted (· < ·)) :
    copiedDiagLogs listing maxFiles = retainedDiagLogs listing maxFiles := by
  have hdesc : (listing.reverse.filter startsWithDiagLog).Sorted (· ≥ ·) := by
    apply List.Sorted.filter
    unfold List.Sorted
    rw [List.pairwise_reverse]
    exact List.Pairwise.imp (fun h => le_of_lt h) hsorted
  have hperm : ((listing.filter startsWithDiagLog).insertionSort (· ≥ ·)).Perm
      (listing.reverse.filter startsWithDiagLog) := by
    refine (List.perm_insertionSort _ _).trans ?_
    exact List.Perm.filter _ (List.reverse_perm listing).symm
  have heq := List.eq_of_perm_of_sorted hperm (List.sorted_insertionSort (· ≥ ·) _) hdesc
  unfold copiedDiagLogs retainedDiagLogs
  simp only [heq]

/-- Two copy commands between the same directories are equal only for the same entry. -/
theorem cpDiagLog_injective (fd : Int) (srcDir destDir : String) (a b : String)
    (h : cpDiagLog fd srcDir destDir a = cpDiagLog fd srcDir destDir b) : a = b := by
  simp only [cpDiagLog, Event.RunCommandToFd.injEq, List.cons.injEq, true_and, and_true] at h
  have hd := congrArg String.data h
  simp only [String.data_append, List.append_assoc] at hd
  have hd' := List.append_cancel_left (List.append_cancel_left (List.append_cancel_left hd))
  have hlen := congrArg List.length hd'
  simp only [List.length_append] at hlen
  have hab : a.data.length = b.data.length := by omega
  have := List.append_inj_left hd' hab
  exact String.ext this

/-- C1. For a listing in strict alphabetical order (distinct names) and a retention value that
is `-1` or not negative, the commands `dumpDiagLogs` issues are, in order, the copy commands
`/vendor/bin/cp <srcDir>/<name> <destDir>/<name>` of the entries the specification retains:
names starting with `diag_log_`, in reverse alphabetical order, cut to the first `maxFiles`
unless `maxFiles = -1`.  Hence only listed entries with the prefix are copied, at most
`maxFiles` commands are issued for `maxFiles ≥ 0`, every matching entry is copied for `-1`,
and for the directory holding `diag_log_003`, `diag_log_002`, `diag_log_001`, `other_file`
with `maxFiles = 2` exactly `diag_log_003` and `diag_log_002` are copied. -/
theorem dumpDiagLogs_retention (fd : Int) (srcDir destDir : String) (listing : List String)
    (maxFiles : Int) (hsorted : listing.Sorted (· < ·)) (hmax : 0 ≤ maxFiles ∨ maxFiles = -1) :
    (dumpDiagLogs (some listing) maxFiles fd srcDir destDir).filter isCommand =
        (retainedDiagLogs listing maxFiles).map (fun d_name =>
          Event.RunCommandToFd fd "CP DIAG LOGS"
            ["/vendor/bin/sh", "-c",
              "/vendor/bin/cp " ++ (srcDir ++ "/" ++ d_name) ++ " " ++ (destDir ++ "/" ++ d_name)]
            (CommandOptions.WithTimeout 120)) ∧
    (∀ d_name,
        Event.RunCommandToFd fd "CP DIAG LOGS"
            ["/vendor/bin/sh", "-c",
              "/vendor/bin/cp " ++ (srcDir ++ "/" ++ d_name) ++ " " ++ (destDir ++ "/" ++ d_name)]
            (CommandOptions.WithTimeout 120) ∈
          dumpDiagLogs (some listing) maxFiles fd srcDir destDir →
        d_name ∈ listing ∧ startsWithDiagLog d_name = true) ∧
    (0 ≤ maxFiles →
      (((dumpDiagLogs (some listing) maxFiles fd srcDir destDir).filter isCommand).length : Int)
        ≤ maxFiles) ∧
    (maxFiles = -1 →
      ((dumpDiagLogs (some listing) maxFiles fd srcDir destDir).filter isCommand).length =
        (listing.filter startsWithDiagLog).length) ∧
    (dumpDiagLogs (some ["diag_log_001", "diag_log_002", "diag_log_003", "other_file"]) 2
        fd srcDir destDir).filter isCommand =
      [ Event.RunCommandToFd fd "CP DIAG LOGS"
          ["/vendor/bin/sh", "-c",
            "/vendor/bin/cp " ++ (srcDir ++ "/" ++ "diag_log_003") ++ " " ++
              (destDir ++ "/" ++ "diag_log_003")]
          (CommandOptions.WithTimeout 120),
        Event.RunCommandToFd fd "CP DIAG LOGS"
          ["/vendor/bin/sh", "-c",
            "/vendor/bin/cp " ++ (srcDir ++ "/" ++ "diag_log_002") ++ " " ++
              (destDir ++ "/" ++ "diag_log_002")]
          (CommandOptions.WithTimeout 120) ] := by
  have hcmd := dumpDiagLogs_commands fd srcDir destDir listing maxFiles hmax
  have hret := copiedDiagLogs_eq_retained listing maxFiles hsorted
  refine ⟨by rw [hcmd, hret]; rfl, ?_, ?_, ?_, ?_⟩
  · intro d_name hmem
    have hmem' : cpDiagLog fd srcDir destDir d_name ∈
        (dumpDiagLogs (some listing) maxFiles fd srcDir destDir).filter isCommand :=
      List.mem_filter.mpr ⟨hmem, rfl⟩
    rw [hcmd] at hmem'
    obtain ⟨n, hn, heq⟩ := List.mem_map.mp hmem'
    have hnd : n = d_name := cpDiagLog_injective fd srcDir destDir n d_name heq
    subst hnd
    have hsub : n ∈ listing.reverse.filter startsWithDiagLog := by
      unfold copiedDiagLogs at hn
      split at hn
      · exact hn
      · exact List.mem_of_mem_take hn
    have := List.mem_filter.mp hsub
    exact ⟨List.mem_reverse.mp this.1, this.2⟩
  · intro h0
    rw [hcmd, List.length_map]
    unfold copiedDiagLogs
    rw [if_neg (by omega), List.length_take]
    omega
  · intro h1
    rw [hcmd, List.length_map]
    unfold copiedDiagLogs
    rw [if_pos h1, List.filter_reverse, List.length_reverse]
  · rw [dumpDiagLogs_commands fd srcDir destDir _ 2 (Or.inl (by decide))]
    have : copiedDiagLogs ["diag_log_001", "diag_log_002", "diag_log_003", "other_file"] 2 =
        ["diag_log_003", "diag_log_002"] := by decide
    rw [this]
    rfl

/-- The retention at the directory of the scenario, with `maxFiles = 2`: the two commands
issued copy `diag_log_003` and `diag_log_002`, in this order. -/
theorem dumpDiagLogs_retention_witness :
    (dumpDiagLogs (some ["diag_log_001", "diag_log_002", "diag_log_003", "other_file"]) 2 5
        "/data/vendor/radio/diag_logs/logs" "/data/vendor/radio/modem_log").filter isCommand =
      [ Event.RunCommandToFd 5 "CP DIAG LOGS"
          ["/vendor/bin/sh", "-c",
            "/vendor/bin/cp /data/vendor/radio/diag_logs/logs/diag_log_003 /data/vendor/radio/modem_log/diag_log_003"]
          (CommandOptions.WithTimeout 120),
        Event.RunCommandToFd 5 "CP DIAG LOGS"
          ["/vendor/bin/sh", "-c",
            "/vendor/bin/cp /data/vendor/radio/diag_logs/logs/diag_log_002 /data/vendor/radio/modem_log/diag_log_002"]
          (CommandOptions.WithTimeout 120) ] :=
  (dumpDiagLogs_retention 5 "/data/vendor/radio/diag_logs/logs" "/data/vendor/radio/modem_log"
    ["diag_log_001", "diag_log_002", "diag_log_003", "other_file"] 2
    (by simp [String.lt_iff_toList_lt]; decide) (Or.inl (by decide))).2.2.2.2.trans (by decide)

/-! ## The shape of a run of `dumpModem` -/

theorem empty_iff (s : String) : empty s = true ↔ s = "" := by
  cases s
  simp [empty, String.length, String.ext_iff]

theorem pollLoop_calls (mdlogStatus : Nat → Bool) (left k : Nat) :
    ∀ e ∈ pollLoop mdlogStatus left k,
      (∃ v, e = Event.GetBoolProperty DIAG_MDLOG_STATUS_PROPERTY false v) ∨ e = Event.sleep 1 := by
  induction left generalizing k with
  | zero => intro e he; simp [pollLoop] at he
  | succ left ih =>
    intro e he
    unfold pollLoop at he
    split at he
    · simp only [List.mem_cons, List.mem_singleton, List.not_mem_nil, or_false] at he
      rcases he with rfl | rfl
      · exact Or.inl ⟨_, rfl⟩
      · exact Or.inr rfl
    · simp only [List.cons_append, List.nil_append, List.mem_cons] at he
      rcases he with rfl | rfl | he
      · exact Or.inl ⟨_, rfl⟩
      · exact Or.inr rfl
      · exact ih _ e he

theorem dumpDiagLogsLoop_calls (fd : Int) (srcDir destDir : String) (maxFileNum : Int)
    (visited : List String) (copiedFiles : Int) :
    ∀ e ∈ dumpDiagLogsLoop fd srcDir destDir maxFileNum visited copiedFiles,
      ∃ d_name, e = cpDiagLog fd srcDir destDir d_name := by
  induction visited generalizing copiedFiles with
  | nil => intro e he; simp [dumpDiagLogsLoop] at he
  | cons d_name rest ih =>
    intro e he
    unfold dumpDiagLogsLoop at he
    split at he
    · exact ih _ e he
    · split at he
      · exact ih _ e he
      · rcases List.mem_cons.mp he with rfl | he
        · exact ⟨_, rfl⟩
        · exact ih _ e he

theorem dumpDiagLogs_calls (scandirResult : Option (List String)) (maxFileNum : Int) (fd : Int)
    (srcDir destDir : String) :
    ∀ e ∈ dumpDiagLogs scandirResult maxFileNum fd srcDir destDir,
      e = Event.scandir srcDir scandirResult ∨
      e = Event.GetIntProperty DIAG_MDLOG_NUMBER_BUGREPORT 100 maxFileNum ∨
      ∃ d_name, e = cpDiagLog fd srcDir destDir d_name := by
  intro e he
  unfold dumpDiagLogs at he
  rcases List.mem_cons.mp he with rfl | he
  · exact Or.inl rfl
  · cases scandirResult with
    | none => simp at he
    | some l =>
      simp only at he
      split at he
      · simp at he
      · rcases List.mem_cons.mp he with rfl | he
        · exact Or.inr (Or.inl rfl)
        · exact Or.inr (Or.inr (dumpDiagLogsLoop_calls _ _ _ _ _ _ e he))

theorem diagLogBranch_calls (env : Env) (fd : Int) (modemLogDir : String) :
    ∀ e ∈ diagLogBranch env fd modemLogDir, collectCall e = true := by
  intro e he
  simp only [diagLogBranch, List.mem_append, List.mem_singleton] at he
  rcases he with (((rfl | he) | he) | he) | he
  · rfl
  · split at he
    · rw [List.mem_singleton.mp he]; rfl
    · simp at he
  · rcases pollLoop_calls _ _ _ e he with ⟨v, rfl⟩ | rfl <;> rfl
  · rcases dumpDiagLogs_calls _ _ _ _ _ e he with rfl | rfl | ⟨n, rfl⟩
    · rfl
    · rfl
    · simp [cpDiagLog, collectCall, collectTitles]
  · split at he
    · rw [List.mem_singleton.mp he]; rfl
    · simp at he

theorem collect_calls (env : Env) (fd : Int) (modemLogDir : String) :
    ∀ e ∈ collect env fd modemLogDir, collectCall e = true := by
  intro e he
  simp only [collect, List.mem_append, List.mem_singleton] at he
  rcases he with (((he | he) | he) | he) | rfl
  · simp only [modemInfo, List.mem_cons, List.mem_singleton, List.not_mem_nil, or_false] at he
    rcases he with rfl | rfl | rfl <;> simp [collectCall, collectTitles]
  · simp only [readSwitches, List.mem_append, List.mem_singleton] at he
    rcases he with (rfl | he) | rfl
    · rfl
    · split at he
      · rw [List.mem_singleton.mp he]; rfl
      · simp at he
    · rfl
  · unfold collectLogs at he
    split at he
    · rw [List.mem_singleton.mp he]; simp [collectCall, collectTitles]
    · split at he
      · exact diagLogBranch_calls env fd modemLogDir e he
      · simp at he
  · simp only [copyRilAndNetmgrLogs, List.mem_map] at he
    obtain ⟨f, -, rfl⟩ := he
    simp [cpModemLog, collectCall, collectTitles]
  · rfl

theorem gate_calls (env : Env) : ∀ e ∈ gate env, collectCall e = true := by
  intro e he
  simp only [gate, List.mem_cons, List.mem_singleton, List.not_mem_nil, or_false] at he
  rcases he with rfl | rfl <;> rfl

theorem dumpModem_archived (fuel : Nat) (env : Env) (fd fdModem : Int)
    (hgate : gatePassed env = true) (hfile : empty env.filePrefix = false) :
    dumpModem fuel env fd fdModem =
      (stream fuel env fdModem).map fun copied =>
        beforeStream env fd ++ copied ++ cleanup fd env.modemLogDir env.filePrefix := by
  simp only [gatePassed, Bool.and_eq_true, Bool.not_eq_true'] at hgate
  simp only [dumpModem, hgate.1, hgate.2, archiveBranch, hfile, Bool.not_false, Bool.false_eq_true,
    if_false, if_true, Option.map_map, beforeStream, gate]
  congr 1
  funext copied
  simp [Function.comp, List.append_assoc]

theorem dumpModem_not_archived (fuel : Nat) (env : Env) (fd fdModem : Int)
    (hgate : gatePassed env = true) (hfile : empty env.filePrefix = true) :
    dumpModem fuel env fd fdModem = some (gate env ++ collect env fd env.modemLogDir) := by
  simp only [gatePassed, Bool.and_eq_true, Bool.not_eq_true'] at hgate
  simp [dumpModem, hgate.1, hgate.2, archiveBranch, hfile, gate]

theorem channelBytes_append (fdModem : Int) (a b : List Event) :
    channelBytes fdModem (a ++ b) = channelBytes fdModem a ++ channelBytes fdModem b := by
  induction a with
  | nil => rfl
  | cons e a ih => cases e <;> simp [channelBytes, ih]

theorem channelBytes_of_no_write (fdModem : Int) (t : List Event)
    (h : ∀ e ∈ t, isWrite e = false) : channelBytes fdModem t = [] := by
  induction t with
  | nil => rfl
  | cons e t ih =>
    have he := h e (List.mem_cons_self _ _)
    have ht := ih (fun x hx => h x (List.mem_cons_of_mem _ hx))
    cases e <;> simp_all [channelBytes, isWrite]

theorem isWrite_of_collectCall (e : Event) (h : collectCall e = true) : isWrite e = false := by
  cases e <;> simp_all [collectCall, isWrite]

theorem archive_calls (env : Env) (fd : Int) (modemLogDir filePrefix : String) :
    ∀ e ∈ archive env fd modemLogDir filePrefix, isWrite e = false ∧ isRead e = false ∧
      isSetProperty e = false := by
  intro e he
  simp only [archive, List.mem_cons, List.mem_singleton, List.not_mem_nil, or_false] at he
  rcases he with rfl | rfl | rfl <;> exact ⟨rfl, rfl, rfl⟩

theorem cleanup_calls (fd : Int) (modemLogDir filePrefix : String) :
    ∀ e ∈ cleanup fd modemLogDir filePrefix, isWrite e = false ∧ isRead e = false ∧
      isSetProperty e = false := by
  intro e he
  simp only [cleanup, List.mem_cons, List.mem_singleton, List.not_mem_nil, or_false] at he
  rcases he with rfl | rfl <;> exact ⟨rfl, rfl, rfl⟩

theorem beforeStream_no_write (env : Env) (fd : Int) :
    ∀ e ∈ beforeStream env fd, isWrite e = false := by
  intro e he
  simp only [beforeStream, List.mem_append] at he
  rcases he with (he | he) | he
  · exact isWrite_of_collectCall e (gate_calls env e he)
  · exact isWrite_of_collectCall e (collect_calls env fd _ e he)
  · exact (archive_calls env fd _ _ e he).1

/-- The bytes a run that reaches the copy loop puts into the channel are those of the loop. -/
theorem channelBytes_run (env : Env) (fd fdModem : Int) (copied : List Event) :
    channelBytes fdModem
        (beforeStream env fd ++ copied ++ cleanup fd env.modemLogDir env.filePrefix) =
      channelBytes fdModem copied := by
  rw [channelBytes_append, channelBytes_append,
    channelBytes_of_no_write _ _ (beforeStream_no_write env fd),
    channelBytes_of_no_write _ _ (fun e he => (cleanup_calls fd _ _ e he).1)]
  simp

/-! ## Order of the calls -/

theorem allBefore_append_of (p q : Event → Bool) (a b : List Event)
    (ha : ∀ e ∈ a, q e = false) (hb : ∀ e ∈ b, p e = false) :
    allBefore p q (a ++ b) = true := by
  induction a with
  | nil =>
    simp only [List.nil_append]
    clear ha
    induction b with
    | nil => rfl
    | cons e b ih =>
      have hrest : ∀ x ∈ b, p x = false := fun x hx => hb x (List.mem_cons_of_mem _ hx)
      simp only [allBefore, ih hrest, Bool.and_true, Bool.or_eq_true, Bool.not_eq_true',
        List.all_eq_true]
      exact Or.inr hrest
  | cons e a ih =>
    have he := ha e (List.mem_cons_self _ _)
    simp only [List.cons_append, allBefore, he, Bool.not_false, Bool.true_or, Bool.true_and]
    exact ih (fun x hx => ha x (List.mem_cons_of_mem _ hx))

theorem allBefore_false_of (p q : Event → Bool) (a b : List Event) (r x : Event)
    (hr : q r = true) (hx : x ∈ b) (hp : p x = true) :
    allBefore p q (a ++ r :: b) = false := by
  induction a with
  | nil =>
    simp only [List.nil_append, allBefore, hr, Bool.not_true, Bool.false_or,
      Bool.and_eq_false_iff]
    left
    rw [← Bool.not_eq_true, List.all_eq_true]
    intro h
    have := h x hx
    simp [hp] at this
  | cons e a ih => simp [allBefore, ih]

theorem allBefore_of_no_q (p q : Event → Bool) (a : List Event)
    (ha : ∀ e ∈ a, q e = false) : allBefore p q a = true := by
  have := allBefore_append_of p q a [] ha (fun e he => by cases he)
  simpa using this

/-- No call satisfying `p` follows a call satisfying `q` when the only call that may satisfy
`q` is followed by calls that do not satisfy `p`. -/
theorem allBefore_append_cons (p q : Event → Bool) (a b : List Event) (x : Event)
    (ha : ∀ e ∈ a, q e = false) (hb : ∀ e ∈ b, p e = false ∧ q e = false) :
    allBefore p q (a ++ x :: b) = true := by
  induction a with
  | nil =>
    simp only [List.nil_append, allBefore, Bool.and_eq_true, Bool.or_eq_true,
      Bool.not_eq_true', List.all_eq_true]
    exact ⟨Or.inr (fun e he => (hb e he).1),
      allBefore_of_no_q p q b (fun e he => (hb e he).2)⟩
  | cons e a ih =>
    have he := ha e (List.mem_cons_self _ _)
    simp only [List.cons_append, allBefore, he, Bool.not_false, Bool.true_or, Bool.true_and]
    exact ih (fun x hx => ha x (List.mem_cons_of_mem _ hx))

/-- A list has one splitting only around a call satisfying `q` when no other call of it
satisfies `q`. -/
theorem split_unique (q : Event → Bool) : ∀ (a pre : List Event) (b post : List Event)
    (x e : Event), a ++ x :: b = pre ++ e :: post → (∀ y ∈ a, q y = false) →
    (∀ y ∈ b, q y = false) → q e = true → pre = a ∧ e = x ∧ post = b := by
  intro a
  induction a with
  | nil =>
    intro pre b post x e h _ hb he
    cases pre with
    | nil =>
      simp only [List.nil_append, List.cons.injEq] at h
      exact ⟨rfl, h.1.symm, h.2.symm⟩
    | cons p pre =>
      simp only [List.nil_append, List.cons_append, List.cons.injEq] at h
      have : e ∈ b := by rw [h.2]; exact List.mem_append_right _ (List.mem_cons_self _ _)
      rw [hb e this] at he
      cases he
  | cons y a ih =>
    intro pre b post x e h ha hb he
    cases pre with
    | nil =>
      simp only [List.nil_append, List.cons_append, List.cons.injEq] at h
      have := ha y (List.mem_cons_self _ _)
      rw [h.1, he] at this
      cases this
    | cons p pre =>
      simp only [List.cons_append, List.cons.injEq] at h
      obtain ⟨h1, h2, h3⟩ := ih pre b post x e h.2
        (fun z hz => ha z (List.mem_cons_of_mem _ hz)) hb he
      exact ⟨by rw [h.1, h1], h2, h3⟩

/-! ## The copy loop -/

theorem stored_length (result : ReadResult) (h : 0 < result.bytes_read) :
    (result.stored.length : Int) = result.bytes_read := by
  cases result with
  | bytes data => rfl
  | failure errno => simp [ReadResult.bytes_read] at h

theorem interrupted_of_pos (result : ReadResult) (h : 0 ≤ result.bytes_read) :
    result.interrupted = false := by
  simp only [ReadResult.interrupted, Bool.and_eq_false_iff, decide_eq_false_iff_not]
  exact Or.inl (by omega)

theorem isFailedRead_of_interrupted (fd : Int) (count : Nat) (result : ReadResult)
    (h : result.interrupted = true) : isFailedRead (Event.read fd count result) = false := by
  cases result with
  | bytes data => rfl
  | failure errno =>
    simp only [ReadResult.interrupted, ReadResult.errno, Bool.and_eq_true, decide_eq_true_eq] at h
    simp [isFailedRead, h.2]

theorem isEndingWrite_of_isRead (e : Event) (h : isRead e = true) : isEndingWrite e = false := by
  cases e <;> first | rfl | simp [isRead] at h

theorem isFailedRead_of_isWrite (e : Event) (h : isWrite e = true) : isFailedRead e = false := by
  cases e <;> first | rfl | simp [isWrite] at h

theorem retryRead_of_not_interrupted (env : Env) (fuel r : Nat)
    (h : (env.reads r).interrupted = false) :
    retryRead env (fuel + 1) r = some ([Event.read env.fdLog 65536 (env.reads r)], r) := by
  simp [retryRead, h]

theorem retryWrite_of_not_interrupted (env : Env) (fdModem : Int) (buffer : List Byte)
    (fuel w : Nat) (h : interruptedWrite env w = false) :
    retryWrite env fdModem buffer (fuel + 1) w =
      some ([Event.write fdModem buffer (env.writes w) (env.writeErrno w)], w) := by
  simp [retryWrite, h]

theorem retryRead_mono (env : Env) : ∀ (fuel r : Nat) (x : List Event × Nat),
    retryRead env fuel r = some x → retryRead env (fuel + 1) r = some x := by
  intro fuel
  induction fuel with
  | zero => intro r x h; simp [retryRead] at h
  | succ f ih =>
    intro r x h
    rw [retryRead] at h ⊢
    by_cases hi : (env.reads r).interrupted = true
    · rw [if_pos hi, Option.map_eq_some'] at h
      obtain ⟨y, hy, rfl⟩ := h
      rw [if_pos hi, ih _ _ hy]
      rfl
    · rw [if_neg hi] at h ⊢
      exact h

theorem retryWrite_mono (env : Env) (fdModem : Int) (buffer : List Byte) :
    ∀ (fuel w : Nat) (x : List Event × Nat),
      retryWrite env fdModem buffer fuel w = some x →
        retryWrite env fdModem buffer (fuel + 1) w = some x := by
  intro fuel
  induction fuel with
  | zero => intro w x h; simp [retryWrite] at h
  | succ f ih =>
    intro w x h
    rw [retryWrite] at h ⊢
    by_cases hi : interruptedWrite env w = true
    · rw [if_pos hi, Option.map_eq_some'] at h
      obtain ⟨y, hy, rfl⟩ := h
      rw [if_pos hi, ih _ _ hy]
      rfl
    · rw [if_neg hi] at h ⊢
      exact h

/-- The calls of a repeated `read`: interrupted reads, then the read whose result is kept,
which is not interrupted. -/
theorem retryRead_calls (env : Env) : ∀ (fuel r : Nat) (calls : List Event) (last : Nat),
    retryRead env fuel r = some (calls, last) →
      (env.reads last).interrupted = false ∧
      ∃ again, calls = again ++ [Event.read env.fdLog 65536 (env.reads last)] ∧
        ∀ e ∈ again, isRead e = true ∧ isFailedRead e = false := by
  intro fuel
  induction fuel with
  | zero => intro r calls last h; simp [retryRead] at h
  | succ f ih =>
    intro r calls last h
    rw [retryRead] at h
    by_cases hi : (env.reads r).interrupted = true
    · rw [if_pos hi, Option.map_eq_some'] at h
      obtain ⟨⟨c, l⟩, hy, heq⟩ := h
      simp only [Prod.mk.injEq] at heq
      obtain ⟨rfl, rfl⟩ := heq
      obtain ⟨hlast, again, rfl, hagain⟩ := ih _ _ _ hy
      refine ⟨hlast, Event.read env.fdLog 65536 (env.reads r) :: again, rfl, ?_⟩
      intro e he
      rcases List.mem_cons.mp he with rfl | he
      · exact ⟨rfl, isFailedRead_of_interrupted _ _ _ hi⟩
      · exact hagain e he
    · rw [if_neg hi] at h
      simp only [Option.some.injEq, Prod.mk.injEq] at h
      obtain ⟨rfl, rfl⟩ := h
      exact ⟨by simpa using hi, [], rfl, fun e he => by cases he⟩

/-- The calls of a repeated `write`: interrupted writes, then the write whose result is kept,
which is not interrupted. -/
theorem retryWrite_calls (env : Env) (fdModem : Int) (buffer : List Byte) :
    ∀ (fuel w : Nat) (calls : List Event) (last : Nat),
      retryWrite env fdModem buffer fuel w = some (calls, last) →
        interruptedWrite env last = false ∧
        ∃ again, calls = again ++
            [Event.write fdModem buffer (env.writes last) (env.writeErrno last)] ∧
          ∀ e ∈ again, isWrite e = true ∧ isEndingWrite e = false := by
  intro fuel
  induction fuel with
  | zero => intro w calls last h; simp [retryWrite] at h
  | succ f ih =>
    intro w calls last h
    rw [retryWrite] at h
    by_cases hi : interruptedWrite env w = true
    · rw [if_pos hi, Option.map_eq_some'] at h
      obtain ⟨⟨c, l⟩, hy, heq⟩ := h
      simp only [Prod.mk.injEq] at heq
      obtain ⟨rfl, rfl⟩ := heq
      obtain ⟨hlast, again, rfl, hagain⟩ := ih _ _ _ hy
      refine ⟨hlast, Event.write fdModem buffer (env.writes w) (env.writeErrno w) :: again,
        rfl, ?_⟩
      intro e he
      rcases List.mem_cons.mp he with rfl | he
      · simp only [interruptedWrite, Bool.and_eq_true, decide_eq_true_eq] at hi
        exact ⟨rfl, by simp [isEndingWrite, hi.1, hi.2]⟩
      · exact hagain e he
    · rw [if_neg hi] at h
      simp only [Option.some.injEq, Prod.mk.injEq] at h
      obtain ⟨rfl, rfl⟩ := h
      exact ⟨by simpa using hi, [], rfl, fun e he => by cases he⟩

/-- A loop without interrupted call whose iterations `k, ..., k + n - 1` go on and whose
iteration `k + n` is the last one ends within `n + 1` rounds, with the calls of
`streamTrace`. -/
theorem streamLoop_of_stops (env : Env) (fdModem : Int) (n : Nat) :
    ∀ (k fuel : Nat), (∀ j, j < n → goesOn env (k + j) = true) →
      stopsAt env (k + n) = true → n < fuel →
      streamLoop env fdModem fuel k k = some (streamTrace env fdModem n k) := by
  induction n with
  | zero =>
    intro k fuel _ hstop hfuel
    obtain ⟨f, rfl⟩ : ∃ f, fuel = f + 1 := ⟨fuel - 1, by omega⟩
    simp only [stopsAt, Nat.add_zero, Bool.or_eq_true, Bool.and_eq_true, decide_eq_true_eq,
      Bool.not_eq_true'] at hstop
    have hread : (env.reads k).interrupted = false := by
      rcases hstop with (h | h) | h
      · exact interrupted_of_pos _ (by omega)
      · exact h.2
      · exact interrupted_of_pos _ (by omega)
    rw [streamLoop, retryRead_of_not_interrupted env f k hread]
    simp only [streamTrace, lastStep]
    by_cases h0 : (env.reads k).bytes_read = 0
    · simp [h0]
    · by_cases h1 : (env.reads k).bytes_read < 0
      · simp [h0, h1, le_of_lt h1]
      · have hpos : 0 < (env.reads k).bytes_read := by omega
        have hw : env.writes k ≠ (env.reads k).bytes_read ∧ interruptedWrite env k = false := by
          rcases hstop with (h | h) | h
          · exact absurd h h0
          · exact absurd h.1 h1
          · exact ⟨h.1.2, h.2⟩
        rw [retryWrite_of_not_interrupted env fdModem _ f k hw.2]
        simp [h0, h1, hw.1, not_le.mpr hpos, copyStep]
  | succ n ih =>
    intro k fuel hgo hstop hfuel
    obtain ⟨f, rfl⟩ : ∃ f, fuel = f + 1 := ⟨fuel - 1, by omega⟩
    have hk := hgo 0 (Nat.succ_pos n)
    simp only [goesOn, Nat.add_zero, Bool.and_eq_true, decide_eq_true_eq] at hk
    have h0 : ¬ (env.reads k).bytes_read = 0 := by omega
    have h1 : ¬ (env.reads k).bytes_read < 0 := by omega
    have hread : (env.reads k).interrupted = false := interrupted_of_pos _ (by omega)
    have hwrite : interruptedWrite env k = false := by
      simp only [interruptedWrite, Bool.and_eq_false_iff, decide_eq_false_iff_not]
      exact Or.inl (by omega)
    have hrest := ih (k + 1) f
      (fun j hj => by
        have := hgo (j + 1) (by omega)
        rwa [show k + (j + 1) = k + 1 + j by omega] at this)
      (by rwa [show k + (n + 1) = k + 1 + n by omega] at hstop) (by omega)
    rw [streamLoop, retryRead_of_not_interrupted env f k hread]
    simp only [h0, h1, if_false]
    rw [retryWrite_of_not_interrupted env fdModem _ f k hwrite]
    simp [hk.2, hrest, streamTrace, copyStep]

theorem streamLoop_mono (env : Env) (fdModem : Int) : ∀ (fuel r w : Nat) (t : List Event),
    streamLoop env fdModem fuel r w = some t → streamLoop env fdModem (fuel + 1) r w = some t := by
  intro fuel
  induction fuel with
  | zero => intro r w t h; simp [streamLoop] at h
  | succ f ih =>
    intro r w t h
    rw [streamLoop] at h ⊢
    cases hR : retryRead env (f + 1) r with
    | none => simp [hR] at h
    | some p =>
      obtain ⟨readCalls, r'⟩ := p
      rw [retryRead_mono env _ _ _ hR]
      simp only [hR] at h ⊢
      by_cases h0 : (env.reads r').bytes_read = 0
      · simpa [h0] using h
      · by_cases h1 : (env.reads r').bytes_read < 0
        · simpa [h0, h1] using h
        · simp only [h0, h1, if_false] at h ⊢
          cases hW : retryWrite env fdModem (env.reads r').stored (f + 1) w with
          | none => simp [hW] at h
          | some q =>
            obtain ⟨writeCalls, w'⟩ := q
            rw [retryWrite_mono env _ _ _ _ _ hW]
            simp only [hW] at h ⊢
            by_cases hres : env.writes w' = (env.reads r').bytes_read
            · simp only [hres, ne_eq, not_true_eq_false, if_false, Option.map_eq_some'] at h ⊢
              obtain ⟨t', ht', rfl⟩ := h
              exact ⟨t', ih _ _ _ ht', rfl⟩
            · simpa [hres] using h

theorem streamLoop_mono_le (env : Env) (fdModem : Int) (fuel fuel' r w : Nat) (t : List Event)
    (hle : fuel ≤ fuel') (h : streamLoop env fdModem fuel r w = some t) :
    streamLoop env fdModem fuel' r w = some t := by
  induction hle with
  | refl => exact h
  | step _ ih => exact streamLoop_mono env fdModem _ r w t ih

/-- The calls of a copy loop that ends do not depend on the fuel. -/
theorem streamLoop_det (env : Env) (fdModem : Int) (fuel fuel' r w : Nat) (t t' : List Event)
    (h : streamLoop env fdModem fuel r w = some t)
    (h' : streamLoop env fdModem fuel' r w = some t') : t = t' := by
  have h1 := streamLoop_mono_le env fdModem fuel (max fuel fuel') r w t (le_max_left _ _) h
  have h2 := streamLoop_mono_le env fdModem fuel' (max fuel fuel') r w t' (le_max_right _ _) h'
  rw [h1] at h2
  exact Option.some.inj h2

/-- The calls of a copy loop that ends are reads and writes, and only the last one can be a
read that failed without being repeated or a write that returned another value than the count
without being repeated. -/
theorem streamLoop_calls (env : Env) (fdModem : Int) : ∀ (fuel r w : Nat) (t : List Event),
    streamLoop env fdModem fuel r w = some t →
      (∀ e ∈ t, isRead e = true ∨ isWrite e = true) ∧
      ∃ init last, t = init ++ [last] ∧
        ∀ e ∈ init, isEndingWrite e = false ∧ isFailedRead e = false := by
  intro fuel
  induction fuel with
  | zero => intro r w t h; simp [streamLoop] at h
  | succ f ih =>
    intro r w t h
    rw [streamLoop] at h
    cases hR : retryRead env (f + 1) r with
    | none => simp [hR] at h
    | some p =>
      obtain ⟨readCalls, r'⟩ := p
      obtain ⟨-, ragain, rfl, hragain⟩ := retryRead_calls env _ _ _ _ hR
      have hreads : ∀ e ∈ ragain ++ [Event.read env.fdLog 65536 (env.reads r')],
          isRead e = true ∨ isWrite e = true := by
        intro e he
        rcases List.mem_append.mp he with he | he
        · exact Or.inl (hragain e he).1
        · rw [List.mem_singleton.mp he]; exact Or.inl rfl
      have hquiet : ∀ e ∈ ragain, isEndingWrite e = false ∧ isFailedRead e = false := by
        intro e he
        have := hragain e he
        exact ⟨isEndingWrite_of_isRead e this.1, this.2⟩
      simp only [hR] at h
      by_cases h0 : (env.reads r').bytes_read = 0
      · simp only [h0, if_true, Option.some.injEq] at h
        subst h
        exact ⟨hreads, ragain, _, rfl, hquiet⟩
      · by_cases h1 : (env.reads r').bytes_read < 0
        · simp only [h0, h1, if_false, if_true, Option.some.injEq] at h
          subst h
          exact ⟨hreads, ragain, _, rfl, hquiet⟩
        · simp only [h0, h1, if_false] at h
          have hpos : 0 < (env.reads r').bytes_read := by omega
          have hgood : isEndingWrite (Event.read env.fdLog 65536 (env.reads r')) = false ∧
              isFailedRead (Event.read env.fdLog 65536 (env.reads r')) = false := by
            refine ⟨rfl, ?_⟩
            cases hres : env.reads r' with
            | bytes data => rfl
            | failure errno => rw [hres] at hpos; simp [ReadResult.bytes_read] at hpos
          cases hW : retryWrite env fdModem (env.reads r').stored (f + 1) w with
          | none => simp [hW] at h
          | some q =>
            obtain ⟨writeCalls, w'⟩ := q
            obtain ⟨-, wagain, rfl, hwagain⟩ := retryWrite_calls env fdModem _ _ _ _ _ hW
            simp only [hW] at h
            have hwrites : ∀ e ∈ wagain ++ [Event.write fdModem (env.reads r').stored
                (env.writes w') (env.writeErrno w')], isRead e = true ∨ isWrite e = true := by
              intro e he
              rcases List.mem_append.mp he with he | he
              · exact Or.inr (hwagain e he).1
              · rw [List.mem_singleton.mp he]; exact Or.inr rfl
            have hwquiet : ∀ e ∈ wagain, isEndingWrite e = false ∧ isFailedRead e = false := by
              intro e he
              have := hwagain e he
              exact ⟨this.2, isFailedRead_of_isWrite e this.1⟩
            have hinit : ∀ e ∈ ragain ++ [Event.read env.fdLog 65536 (env.reads r')] ++ wagain,
                isEndingWrite e = false ∧ isFailedRead e = false := by
              intro e he
              simp only [List.mem_append, List.mem_singleton] at he
              rcases he with (he | rfl) | he
              · exact hquiet e he
              · exact hgood
              · exact hwquiet e he
            by_cases hres : env.writes w' = (env.reads r').bytes_read
            · rw [if_neg (not_not.mpr hres), Option.map_eq_some'] at h
              obtain ⟨t', ht', rfl⟩ := h
              obtain ⟨hio, init, last, rfl, hinit'⟩ := ih _ _ _ ht'
              have hfull : isEndingWrite (Event.write fdModem (env.reads r').stored
                  (env.writes w') (env.writeErrno w')) = false := by
                simp [isEndingWrite, hres, stored_length _ hpos]
              refine ⟨?_, ragain ++ [Event.read env.fdLog 65536 (env.reads r')] ++
                (wagain ++ [Event.write fdModem (env.reads r').stored (env.writes w')
                  (env.writeErrno w')]) ++ init, last, by simp only [List.append_assoc], ?_⟩
              · intro e he
                simp only [List.mem_append] at he
                rcases he with (he | he) | he
                · exact hreads e (List.mem_append.mpr he)
                · exact hwrites e (List.mem_append.mpr he)
                · exact hio e (List.mem_append.mpr he)
              · intro e he
                simp only [List.mem_append, List.mem_singleton] at he
                rcases he with (((he | rfl) | (he | rfl))) | he
                · exact hquiet e he
                · exact hgood
                · exact hwquiet e he
                · exact ⟨hfull, rfl⟩
                · exact hinit' e he
            · rw [if_pos hres] at h
              cases h
              refine ⟨?_, ragain ++ [Event.read env.fdLog 65536 (env.reads r')] ++ wagain,
                Event.write fdModem (env.reads r').stored (env.writes w') (env.writeErrno w'),
                by simp only [List.append_assoc], hinit⟩
              intro e he
              rcases List.mem_append.mp he with he | he
              · exact hreads e he
              · exact hwrites e he

/-! ## Copy loops with interrupted calls -/

theorem retryRead_skip (env : Env) : ∀ (m r fuel : Nat),
    (∀ i, r ≤ i → i < r + m → (env.reads i).interrupted = true) →
    (env.reads (r + m)).interrupted = false → m < fuel →
    ∃ calls, retryRead env fuel r = some (calls, r + m) := by
  intro m
  induction m with
  | zero =>
    intro r fuel _ hlast hfuel
    obtain ⟨f, rfl⟩ : ∃ f, fuel = f + 1 := ⟨fuel - 1, by omega⟩
    exact ⟨_, retryRead_of_not_interrupted env f r hlast⟩
  | succ m ih =>
    intro r fuel hint hlast hfuel
    obtain ⟨f, rfl⟩ : ∃ f, fuel = f + 1 := ⟨fuel - 1, by omega⟩
    obtain ⟨calls, hcalls⟩ := ih (r + 1) f
      (fun i h1 h2 => hint i (by omega) (by omega))
      (by rwa [show r + 1 + m = r + (m + 1) by omega]) (by omega)
    refine ⟨Event.read env.fdLog 65536 (env.reads r) :: calls, ?_⟩
    rw [retryRead, if_pos (hint r (le_refl r) (by omega)), hcalls,
      show r + 1 + m = r + (m + 1) by omega]
    rfl

theorem retryWrite_skip (env : Env) (fdModem : Int) (buffer : List Byte) : ∀ (m w fuel : Nat),
    (∀ i, w ≤ i → i < w + m → interruptedWrite env i = true) →
    interruptedWrite env (w + m) = false → m < fuel →
    ∃ calls, retryWrite env fdModem buffer fuel w = some (calls, w + m) := by
  intro m
  induction m with
  | zero =>
    intro w fuel _ hlast hfuel
    obtain ⟨f, rfl⟩ : ∃ f, fuel = f + 1 := ⟨fuel - 1, by omega⟩
    exact ⟨_, retryWrite_of_not_interrupted env fdModem buffer f w hlast⟩
  | succ m ih =>
    intro w fuel hint hlast hfuel
    obtain ⟨f, rfl⟩ : ∃ f, fuel = f + 1 := ⟨fuel - 1, by omega⟩
    obtain ⟨calls, hcalls⟩ := ih (w + 1) f
      (fun i h1 h2 => hint i (by omega) (by omega))
      (by rwa [show w + 1 + m = w + (m + 1) by omega]) (by omega)
    refine ⟨Event.write fdModem buffer (env.writes w) (env.writeErrno w) :: calls, ?_⟩
    rw [retryWrite, if_pos (hint w (le_refl w) (by omega)), hcalls,
      show w + 1 + m = w + (m + 1) by omega]
    rfl

/-- A copy loop reaches the write of its iteration `n` and ends on it when: `R k` and `W k`
are the indices of the read and of the write of iteration `k` whose results are kept, every
other call up to them is interrupted, the kept calls of the iterations before `n` are a
positive read and a write of that count, and the kept calls of iteration `n` are a positive
read and a write that does not return that count. -/
theorem streamLoop_reaches_write (env : Env) (fdModem : Int) :
    ∀ (n : Nat) (R W : Nat → Nat) (r w fuel : Nat),
      r ≤ R 0 → w ≤ W 0 →
      (∀ k, k < n → R k < R (k + 1)) → (∀ k, k < n → W k < W (k + 1)) →
      (∀ i, r ≤ i → i ≤ R n → (∀ k, k ≤ n → i ≠ R k) → (env.reads i).interrupted = true) →
      (∀ i, w ≤ i → i ≤ W n → (∀ k, k ≤ n → i ≠ W k) → interruptedWrite env i = true) →
      (∀ k, k < n → 0 < (env.reads (R k)).bytes_read ∧
        env.writes (W k) = (env.reads (R k)).bytes_read) →
      0 < (env.reads (R n)).bytes_read →
      env.writes (W n) ≠ (env.reads (R n)).bytes_read →
      interruptedWrite env (W n) = false →
      R n < fuel + r → W n < fuel + w →
      ∃ init, streamLoop env fdModem fuel r w =
        some (init ++ [Event.write fdModem (env.reads (R n)).stored (env.writes (W n))
          (env.writeErrno (W n))]) := by
  intro n
  induction n with
  | zero =>
    intro R W r w fuel hr hw _ _ hRint hWint _ hread hshort hnot hfr hfw
    obtain ⟨f, rfl⟩ : ∃ f, fuel = f + 1 := ⟨fuel - 1, by omega⟩
    obtain ⟨readCalls, hreadCalls⟩ := retryRead_skip env (R 0 - r) r (f + 1)
      (fun i h1 h2 => hRint i h1 (by omega) (fun k hk => by
        have : k = 0 := by omega
        subst this; omega))
      (by rw [show r + (R 0 - r) = R 0 by omega]; exact interrupted_of_pos _ (by omega))
      (by omega)
    rw [show r + (R 0 - r) = R 0 by omega] at hreadCalls
    obtain ⟨writeCalls, hwriteCalls⟩ := retryWrite_skip env fdModem (env.reads (R 0)).stored
      (W 0 - w) w (f + 1)
      (fun i h1 h2 => hWint i h1 (by omega) (fun k hk => by
        have : k = 0 := by omega
        subst this; omega))
      (by rw [show w + (W 0 - w) = W 0 by omega]; exact hnot) (by omega)
    rw [show w + (W 0 - w) = W 0 by omega] at hwriteCalls
    obtain ⟨-, again, rfl, -⟩ := retryWrite_calls env fdModem _ _ _ _ _ hwriteCalls
    refine ⟨readCalls ++ again, ?_⟩
    rw [streamLoop]
    simp only [hreadCalls, hwriteCalls]
    rw [if_neg (by omega), if_neg (by omega), if_pos hshort, List.append_assoc]
  | succ n ih =>
    intro R W r w fuel hr hw hRmono hWmono hRint hWint hgo hread hshort hnot hfr hfw
    have hRlt : ∀ k, k ≤ n + 1 → R 0 + k ≤ R k := by
      intro k
      induction k with
      | zero => intro _; omega
      | succ k ihk =>
        intro hk
        have := ihk (by omega)
        have := hRmono k (by omega)
        omega
    have hWlt : ∀ k, k ≤ n + 1 → W 0 + k ≤ W k := by
      intro k
      induction k with
      | zero => intro _; omega
      | succ k ihk =>
        intro hk
        have := ihk (by omega)
        have := hWmono k (by omega)
        omega
    have hRn := hRlt (n + 1) (le_refl _)
    have hWn := hWlt (n + 1) (le_refl _)
    obtain ⟨f, rfl⟩ : ∃ f, fuel = f + 1 := ⟨fuel - 1, by omega⟩
    have hgo0 := hgo 0 (Nat.succ_pos n)
    obtain ⟨readCalls, hreadCalls⟩ := retryRead_skip env (R 0 - r) r (f + 1)
      (fun i h1 h2 => hRint i h1 (by omega) (fun k hk => by
        have := hRlt k hk
        omega))
      (by rw [show r + (R 0 - r) = R 0 by omega]; exact interrupted_of_pos _ (by omega))
      (by omega)
    rw [show r + (R 0 - r) = R 0 by omega] at hreadCalls
    have hnot0 : interruptedWrite env (W 0) = false := by
      have hne : ¬ (env.writes (W 0) = -1) := by
        have h1 := hgo0.1
        have h2 := hgo0.2
        omega
      simp [interruptedWrite, hne]
    obtain ⟨writeCalls, hwriteCalls⟩ := retryWrite_skip env fdModem (env.reads (R 0)).stored
      (W 0 - w) w (f + 1)
      (fun i h1 h2 => hWint i h1 (by omega) (fun k hk => by
        have := hWlt k hk
        omega))
      (by rw [show w + (W 0 - w) = W 0 by omega]; exact hnot0) (by omega)
    rw [show w + (W 0 - w) = W 0 by omega] at hwriteCalls
    obtain ⟨init, hinit⟩ := ih (fun k => R (k + 1)) (fun k => W (k + 1)) (R 0 + 1) (W 0 + 1) f
      (hRmono 0 (Nat.succ_pos n)) (hWmono 0 (Nat.succ_pos n))
      (fun k hk => hRmono (k + 1) (by omega)) (fun k hk => hWmono (k + 1) (by omega))
      (fun i h1 h2 hne => hRint i (by omega) h2 (fun k hk => by
        cases k with
        | zero => omega
        | succ k => exact hne k (by omega)))
      (fun i h1 h2 hne => hWint i (by omega) h2 (fun k hk => by
        cases k with
        | zero => omega
        | succ k => exact hne k (by omega)))
      (fun k hk => hgo (k + 1) (by omega)) hread hshort hnot
      (show R (n + 1) < f + (R 0 + 1) by omega) (show W (n + 1) < f + (W 0 + 1) by omega)
    refine ⟨readCalls ++ writeCalls ++ init, ?_⟩
    rw [streamLoop]
    simp only [hreadCalls, hwriteCalls]
    rw [if_neg (by omega), if_neg (by omega), if_neg (not_not.mpr hgo0.2), hinit]
    simp only [Option.map_some', List.append_assoc]

/-- The bytes of a copy loop that reads the chunks of `chunks` one after the other, every
`write` accepting its whole buffer, and then a `read` that stores nothing. -/
theorem channelBytes_streamTrace (env : Env) (fdModem : Int) (chunks : List (List Byte)) :
    ∀ k : Nat,
      (∀ j (h : j < chunks.length), env.reads (k + j) = ReadResult.bytes (chunks.get ⟨j, h⟩)) →
      (∀ j (h : j < chunks.length), env.writes (k + j) = ((chunks.get ⟨j, h⟩).length : Int)) →
      (env.reads (k + chunks.length)).bytes_read ≤ 0 →
      channelBytes fdModem (streamTrace env fdModem chunks.length k) =
        chunks.flatten := by
  induction chunks with
  | nil =>
    intro k _ _ hlast
    simp only [List.length_nil, Nat.add_zero] at hlast
    simp [streamTrace, lastStep, hlast, channelBytes]
  | cons c chunks ih =>
    intro k hreads hwrites hlast
    have hr := hreads 0 (Nat.succ_pos _)
    have hw := hwrites 0 (Nat.succ_pos _)
    simp only [Nat.add_zero, List.get_eq_getElem, List.getElem_cons_zero] at hr hw
    have hrest := ih (k + 1)
      (fun j h => by
        have := hreads (j + 1) (Nat.succ_lt_succ h)
        rw [show k + 1 + j = k + (j + 1) by omega, this]; rfl)
      (fun j h => by
        have := hwrites (j + 1) (Nat.succ_lt_succ h)
        rw [show k + 1 + j = k + (j + 1) by omega, this]; rfl)
      (by rwa [show k + 1 + chunks.length = k + (c :: chunks).length by simp; omega])
    have hstep : channelBytes fdModem (copyStep env fdModem k) = c := by
      simp [copyStep, channelBytes, hr, hw, ReadResult.stored]
    show channelBytes fdModem (copyStep env fdModem k ++
      streamTrace env fdModem chunks.length (k + 1)) = _
    rw [channelBytes_append, hrest, hstep, List.flatten_cons]

/-- The iterations of such a loop go on while there are chunks. -/
theorem goesOn_chunks (env : Env) (chunks : List (List Byte))
    (hsize : ∀ c ∈ chunks, 1 ≤ c.length)
    (hreads : ∀ j (h : j < chunks.length), env.reads j = ReadResult.bytes (chunks.get ⟨j, h⟩))
    (hwrites : ∀ j (h : j < chunks.length), env.writes j = ((chunks.get ⟨j, h⟩).length : Int)) :
    ∀ j, j < chunks.length → goesOn env (0 + j) = true := by
  intro j hj
  have hc := hsize _ (List.get_mem chunks j hj)
  simp only [goesOn, Nat.zero_add, hreads j hj, hwrites j hj, ReadResult.bytes_read,
    Bool.and_eq_true, decide_eq_true_eq, and_true]
  omega

theorem streamTrace_split (env : Env) (fdModem : Int)
    (n : Nat) : ∀ k, streamTrace env fdModem n k =
      copySteps env fdModem n k ++ lastStep env fdModem (k + n) := by
  induction n with
  | zero => intro k; simp [streamTrace, copySteps]
  | succ n ih =>
    intro k
    rw [streamTrace, copySteps, ih (k + 1), List.append_assoc,
      show k + 1 + n = k + (n + 1) by omega]

/-- The calls of a run of `dumpModem` that returns do not depend on the fuel. -/
theorem dumpModem_det (env : Env) (fd fdModem : Int) (fuel fuel' : Nat) (t t' : List Event)
    (h : dumpModem fuel env fd fdModem = some t) (h' : dumpModem fuel' env fd fdModem = some t') :
    t = t' := by
  by_cases hgate : gatePassed env = true
  · cases hfile : empty env.filePrefix with
    | true =>
      rw [dumpModem_not_archived fuel env fd fdModem hgate hfile] at h
      rw [dumpModem_not_archived fuel' env fd fdModem hgate hfile] at h'
      exact (Option.some.inj h).symm.trans (Option.some.inj h')
    | false =>
      rw [dumpModem_archived fuel env fd fdModem hgate hfile, Option.map_eq_some'] at h
      rw [dumpModem_archived fuel' env fd fdModem hgate hfile, Option.map_eq_some'] at h'
      obtain ⟨c, hc, rfl⟩ := h
      obtain ⟨c', hc', rfl⟩ := h'
      have : c = c' := by
        unfold stream at hc hc'
        by_cases hopen : env.fdLog ≥ 0
        · rw [if_pos hopen] at hc hc'
          exact streamLoop_det _ _ _ _ _ _ _ _ hc hc'
        · rw [if_neg hopen] at hc hc'
          exact (Option.some.inj hc).symm.trans (Option.some.inj hc')
      rw [this]
  · simp only [gatePassed, Bool.and_eq_true, Bool.not_eq_true', not_and, Bool.not_eq_false] at hgate
    unfold dumpModem at h h'
    by_cases hloc : empty env.modemLogDir = true
    · simp only [hloc, if_true] at h h'
      exact (Option.some.inj h).symm.trans (Option.some.inj h')
    · have hloc' : empty env.modemLogDir = false := by simpa using hloc
      simp only [hloc', hgate hloc', Bool.false_eq_true, if_false, Bool.not_true] at h h'
      exact (Option.some.inj h).symm.trans (Option.some.inj h')

/-- A run that reaches a copy loop whose iteration `n` is the last one returns, with the calls
of that loop between those before the `open` and the two removals. -/
theorem dumpModem_of_stops (env : Env) (fd fdModem : Int) (n fuel : Nat)
    (hgate : gatePassed env = true) (hfile : empty env.filePrefix = false)
    (hopen : 0 ≤ env.fdLog)
    (hgo : ∀ j, j < n → goesOn env j = true)
    (hstop : stopsAt env n = true) (hfuel : n < fuel) :
    dumpModem fuel env fd fdModem =
      some (beforeStream env fd ++
        (copySteps env fdModem n 0 ++
          lastStep env fdModem n) ++
        cleanup fd env.modemLogDir env.filePrefix) := by
  have hloop := streamLoop_of_stops env fdModem n 0 fuel
    (fun j hj => by rw [Nat.zero_add]; exact hgo j hj) (by rwa [Nat.zero_add]) hfuel
  rw [dumpModem_archived fuel env fd fdModem hgate hfile, stream, if_pos hopen, hloop,
    streamTrace_split, Nat.zero_add]
  rfl

/-- C2. Streaming round trip: in a run of `dumpModem` that reaches the copy loop, when the
successive reads return the archive split into chunks of 1 to 65536 bytes, then 0, and every
write returns the count it was asked to write, the run returns and the bytes written to the
modem channel are, in order and in number, the bytes of the archive. -/
theorem dumpModem_stream_round_trip (env : Env) (fd fdModem : Int) (archiveBytes : List Byte)
    (chunks : List (List Byte))
    (hgate : gatePassed env = true) (hfile : empty env.filePrefix = false)
    (hopen : 0 ≤ env.fdLog)
    (hsplit : chunks.flatten = archiveBytes)
    (hsize : ∀ c ∈ chunks, 1 ≤ c.length ∧ c.length ≤ 65536)
    (hreads : ∀ k (h : k < chunks.length), env.reads k = ReadResult.bytes (chunks.get ⟨k, h⟩))
    (heof : (env.reads chunks.length).bytes_read = 0)
    (hwrites : ∀ k (h : k < chunks.length),
      env.writes k = ((chunks.get ⟨k, h⟩).length : Int)) :
    ∃ trace, (∀ fuel, chunks.length < fuel → dumpModem fuel env fd fdModem = some trace) ∧
      (∀ fuel t, dumpModem fuel env fd fdModem = some t → t = trace) ∧
      channelBytes fdModem trace = archiveBytes := by
  have hgo := goesOn_chunks env chunks (fun c hc => (hsize c hc).1) hreads hwrites
  have hstop : stopsAt env (0 + chunks.length) = true := by
    simp [stopsAt, heof]
  have hrun : ∀ fuel, chunks.length < fuel → dumpModem fuel env fd fdModem =
      some (beforeStream env fd ++ streamTrace env fdModem
        chunks.length 0 ++ cleanup fd env.modemLogDir env.filePrefix) := by
    intro fuel hfuel
    rw [dumpModem_archived fuel env fd fdModem hgate hfile, stream, if_pos hopen,
      streamLoop_of_stops env fdModem _ 0 fuel hgo hstop hfuel]
    rfl
  refine ⟨_, hrun, ?_, ?_⟩
  · intro fuel t ht
    exact dumpModem_det env fd fdModem _ _ _ _ ht (hrun (chunks.length + 1) (Nat.lt_succ_self _))
  · rw [channelBytes_run, channelBytes_streamTrace env fdModem chunks 0
      (fun j h => by rw [Nat.zero_add]; exact hreads j h)
      (fun j h => by rw [Nat.zero_add]; exact hwrites j h)
      (by rw [Nat.zero_add, heof]), hsplit]

/-- The round trip for the archive `1, 2, 3, 4` read as `1, 2, 3` and `4`. -/
theorem dumpModem_stream_round_trip_witness :
    ∃ trace, (∀ fuel, 2 < fuel → dumpModem fuel exampleEnv 3 4 = some trace) ∧
      (∀ fuel t, dumpModem fuel exampleEnv 3 4 = some t → t = trace) ∧
      channelBytes 4 trace = [1, 2, 3, 4] :=
  dumpModem_stream_round_trip exampleEnv 3 4 [1, 2, 3, 4] [[1, 2, 3], [4]] (by decide) (by decide)
    (by decide) (by decide) (by decide)
    (by intro k h; have h2 : k < 2 := h; interval_cases k <;> rfl) (by decide)
    (by intro k h; have h2 : k < 2 := h; interval_cases k <;> rfl)

theorem copySteps_calls (env : Env) (fdModem : Int)
    (n : Nat) : ∀ k, ∀ e ∈ copySteps env fdModem n k,
      (isRead e = true ∨ isWrite e = true) ∧ isSetProperty e = false ∧ isCommand e = false := by
  induction n with
  | zero => intro k e he; simp [copySteps] at he
  | succ n ih =>
    intro k e he
    simp only [copySteps, copyStep, List.cons_append, List.nil_append, List.mem_cons] at he
    rcases he with rfl | rfl | he
    · exact ⟨Or.inl rfl, rfl, rfl⟩
    · exact ⟨Or.inr rfl, rfl, rfl⟩
    · exact ih _ e he

theorem lastStep_calls (env : Env) (fdModem : Int)
    (k : Nat) : ∀ e ∈ lastStep env fdModem k,
      (isRead e = true ∨ isWrite e = true) ∧ isSetProperty e = false ∧ isCommand e = false := by
  intro e he
  unfold lastStep at he
  split at he
  · rw [List.mem_singleton.mp he]; exact ⟨Or.inl rfl, rfl, rfl⟩
  · simp only [copyStep, List.mem_cons, List.mem_singleton, List.not_mem_nil, or_false] at he
    rcases he with rfl | rfl
    · exact ⟨Or.inl rfl, rfl, rfl⟩
    · exact ⟨Or.inr rfl, rfl, rfl⟩

theorem copySteps_writes (env : Env) (fdModem : Int)
    (n : Nat) : ∀ k, ((copySteps env fdModem n k).filter isWrite).length = n := by
  induction n with
  | zero => intro k; rfl
  | succ n ih =>
    intro k
    simp only [copySteps, copyStep, List.cons_append, List.nil_append]
    rw [List.filter_cons_of_neg (by simp [isWrite]), List.filter_cons_of_pos (by simp [isWrite]),
      List.length_cons, ih]

theorem filter_isWrite_beforeStream (env : Env) (fd : Int) :
    (beforeStream env fd).filter isWrite = [] := by
  rw [List.filter_eq_nil_iff]
  intro e he
  simp [beforeStream_no_write env fd e he]

theorem empty_eq_false_iff (s : String) : empty s = false ↔ s ≠ "" := by
  rw [← Bool.not_eq_true, empty_iff]

theorem gatePassed_iff (env : Env) :
    gatePassed env = true ↔ ¬ (env.modemLogDir = "" ∨ env.IsUserBuild = true) := by
  simp only [gatePassed, Bool.and_eq_true, Bool.not_eq_true', empty_eq_false_iff, not_or, ne_eq,
    Bool.not_eq_true]

/-- A run that does not pass the gate returns after the calls that evaluate the gate. -/
theorem dumpModem_skipped (fuel : Nat) (env : Env) (fd fdModem : Int)
    (hgate : gatePassed env = false) :
    dumpModem fuel env fd fdModem = some (if empty env.modemLogDir then (gate env).take 1
      else gate env) := by
  simp only [gatePassed, Bool.and_eq_false_iff, Bool.not_eq_false'] at hgate
  unfold dumpModem
  by_cases hloc : empty env.modemLogDir = true
  · simp [hloc, gate]
  · have hloc' : empty env.modemLogDir = false := by simpa using hloc
    have huser : env.IsUserBuild = true := by
      rcases hgate with h | h
      · exact absurd h hloc
      · exact h
    simp [hloc', huser, gate]

theorem stream_calls (fuel : Nat) (env : Env) (fdModem : Int) (copied : List Event)
    (h : stream fuel env fdModem = some copied) :
    ∀ e ∈ copied, (isRead e = true ∨ isWrite e = true) ∧ isSetProperty e = false ∧
      isCommand e = false := by
  have hio : ∀ e ∈ copied, isRead e = true ∨ isWrite e = true := by
    unfold stream at h
    split at h
    · exact (streamLoop_calls env fdModem _ _ _ _ h).1
    · cases h
      intro e he
      cases he
  intro e he
  have := hio e he
  refine ⟨this, ?_, ?_⟩ <;>
    (cases e with
     | read fd count result => rfl
     | write fd buf result errno => rfl
     | _ => simp [isRead, isWrite] at this)

/-- In the calls of a copy loop that ends, only the last one can be a read that failed without
being repeated or a write that returned another value than the count without being repeated. -/
theorem stream_ending (fuel : Nat) (env : Env) (fdModem : Int) (copied : List Event)
    (h : stream fuel env fdModem = some copied) :
    copied = [] ∨ ∃ init last, copied = init ++ [last] ∧
      ∀ e ∈ init, isEndingWrite e = false ∧ isFailedRead e = false := by
  unfold stream at h
  split at h
  · exact Or.inr (streamLoop_calls env fdModem _ _ _ _ h).2
  · cases h
    exact Or.inl rfl

/-- The shape of a run that passes the gate and returns. -/
theorem dumpModem_passed (fuel : Nat) (env : Env) (fd fdModem : Int) (trace : List Event)
    (hgate : gatePassed env = true) (hrun : dumpModem fuel env fd fdModem = some trace) :
    (empty env.filePrefix = true ∧ trace = gate env ++ collect env fd env.modemLogDir) ∨
    (empty env.filePrefix = false ∧ ∃ copied, stream fuel env fdModem = some copied ∧
      trace = beforeStream env fd ++ copied ++ cleanup fd env.modemLogDir env.filePrefix) := by
  cases hfile : empty env.filePrefix with
  | true =>
    rw [dumpModem_not_archived fuel env fd fdModem hgate hfile] at hrun
    exact Or.inl ⟨rfl, (Option.some.inj hrun).symm⟩
  | false =>
    rw [dumpModem_archived fuel env fd fdModem hgate hfile, Option.map_eq_some'] at hrun
    obtain ⟨copied, hc, rfl⟩ := hrun
    exact Or.inr ⟨rfl, copied, hc, rfl⟩

/-- A run returns as soon as the fuel covers the iterations of its copy loop. -/
theorem dumpModem_returns (env : Env) (fd fdModem : Int) (n fuel : Nat)
    (hends : loopEndsAt env n) (hfuel : n < fuel) :
    (dumpModem fuel env fd fdModem).isSome = true := by
  cases hgate : gatePassed env with
  | false => rw [dumpModem_skipped fuel env fd fdModem hgate]; rfl
  | true =>
    cases hfile : empty env.filePrefix with
    | true => rw [dumpModem_not_archived fuel env fd fdModem hgate hfile]; rfl
    | false =>
      rw [dumpModem_archived fuel env fd fdModem hgate hfile, stream]
      split
      · rw [streamLoop_of_stops env fdModem n 0 fuel
          (fun j hj => by rw [Nat.zero_add]; exact hends.1 j hj)
          (by rw [Nat.zero_add]; exact hends.2) hfuel]
        rfl
      · rfl

theorem isRead_of_collectCall (e : Event) (h : collectCall e = true) : isRead e = false := by
  cases e <;> simp_all [collectCall, isRead]

theorem not_ending_of_not_io (e : Event) (hr : isRead e = false) (hw : isWrite e = false) :
    isEndingWrite e = false ∧ isFailedRead e = false := by
  cases e with
  | read fd count result => simp [isRead] at hr
  | write fd buf result errno => simp [isWrite] at hw
  | _ => exact ⟨rfl, rfl⟩

theorem beforeStream_no_read (env : Env) (fd : Int) :
    ∀ e ∈ beforeStream env fd, isRead e = false := by
  intro e he
  simp only [beforeStream, List.mem_append] at he
  rcases he with (he | he) | he
  · exact isRead_of_collectCall e (gate_calls env e he)
  · exact isRead_of_collectCall e (collect_calls env fd _ e he)
  · exact (archive_calls env fd _ _ e he).2.1

/-- In a run that returns, a read that failed without being repeated, or a write that returned
another value than the count without being repeated, can only be the call that the two
removals follow. -/
theorem dumpModem_ending (fuel : Nat) (env : Env) (fd fdModem : Int) (trace : List Event)
    (hrun : dumpModem fuel env fd fdModem = some trace) :
    (∀ e ∈ trace, isEndingWrite e = false ∧ isFailedRead e = false) ∨
    ∃ a x, trace = a ++ x :: cleanup fd env.modemLogDir env.filePrefix ∧
      ∀ e ∈ a, isEndingWrite e = false ∧ isFailedRead e = false := by
  have hbefore : ∀ e ∈ beforeStream env fd, isEndingWrite e = false ∧ isFailedRead e = false :=
    fun e he => not_ending_of_not_io e (beforeStream_no_read env fd e he)
      (beforeStream_no_write env fd e he)
  have hclean : ∀ e ∈ cleanup fd env.modemLogDir env.filePrefix,
      isEndingWrite e = false ∧ isFailedRead e = false :=
    fun e he => not_ending_of_not_io e (cleanup_calls fd _ _ e he).2.1
      (cleanup_calls fd _ _ e he).1
  cases hgate : gatePassed env with
  | false =>
    rw [dumpModem_skipped fuel env fd fdModem hgate] at hrun
    cases hrun
    left
    intro e he
    have hmem : e ∈ gate env := by
      split at he
      · exact List.mem_of_mem_take he
      · exact he
    exact not_ending_of_not_io e (isRead_of_collectCall e (gate_calls env e hmem))
      (isWrite_of_collectCall e (gate_calls env e hmem))
  | true =>
    rcases dumpModem_passed fuel env fd fdModem trace hgate hrun with
      ⟨-, rfl⟩ | ⟨-, c, hc, rfl⟩
    · left
      intro e he
      have hcall : collectCall e = true := by
        rcases List.mem_append.mp he with he | he
        · exact gate_calls env e he
        · exact collect_calls env fd _ e he
      exact not_ending_of_not_io e (isRead_of_collectCall e hcall)
        (isWrite_of_collectCall e hcall)
    · rcases stream_ending fuel env fdModem c hc with rfl | ⟨init, last, rfl, hinit⟩
      · left
        intro e he
        simp only [List.append_nil, List.mem_append] at he
        rcases he with he | he
        · exact hbefore e he
        · exact hclean e he
      · right
        refine ⟨beforeStream env fd ++ init, last, by simp only [List.append_assoc,
          List.singleton_append], ?_⟩
        intro e he
        rcases List.mem_append.mp he with he | he
        · exact hbefore e he
        · exact hinit e he

/-- What follows, in a run that returns, a read that failed without being repeated or a write
that returned another value than the count without being repeated: the two removals. -/
theorem dumpModem_after_ending (fuel : Nat) (env : Env) (fd fdModem : Int)
    (trace pre post : List Event) (e : Event)
    (hrun : dumpModem fuel env fd fdModem = some trace) (hsplit : trace = pre ++ e :: post)
    (he : isEndingWrite e = true ∨ isFailedRead e = true) :
    post = cleanup fd env.modemLogDir env.filePrefix := by
  have hq : (isEndingWrite e || isFailedRead e) = true := by
    rcases he with h | h <;> simp [h]
  rcases dumpModem_ending fuel env fd fdModem trace hrun with hnone | ⟨a, x, rfl, ha⟩
  · have := hnone e (by rw [hsplit]; exact List.mem_append_right _ (List.mem_cons_self _ _))
    rw [this.1, this.2] at hq
    cases hq
  · have hclean : ∀ y ∈ cleanup fd env.modemLogDir env.filePrefix,
        (isEndingWrite y || isFailedRead y) = false := by
      intro y hy
      have := not_ending_of_not_io y (cleanup_calls fd _ _ y hy).2.1
        (cleanup_calls fd _ _ y hy).1
      simp [this.1, this.2]
    exact (split_unique (fun y => isEndingWrite y || isFailedRead y) a pre _ post x e hsplit
      (fun y hy => by simp [(ha y hy).1, (ha y hy).2]) hclean hq).2.2

/-- In a run that returns, no read and no write follows a write that returned another value
than the count without being repeated, and no write follows a read that failed without
being repeated. -/
theorem dumpModem_io_order (fuel : Nat) (env : Env) (fd fdModem : Int) (trace : List Event)
    (hrun : dumpModem fuel env fd fdModem = some trace) :
    allBefore isIo isEndingWrite trace = true ∧ allBefore isWrite isFailedRead trace = true := by
  have hclean : ∀ e ∈ cleanup fd env.modemLogDir env.filePrefix,
      isIo e = false ∧ isWrite e = false ∧ isEndingWrite e = false ∧ isFailedRead e = false := by
    intro e he
    have h := cleanup_calls fd _ _ e he
    have h' := not_ending_of_not_io e h.2.1 h.1
    exact ⟨by simp [isIo, h.1, h.2.1], h.1, h'.1, h'.2⟩
  rcases dumpModem_ending fuel env fd fdModem trace hrun with hnone | ⟨a, x, rfl, ha⟩
  · exact ⟨allBefore_of_no_q _ _ _ (fun e he => (hnone e he).1),
      allBefore_of_no_q _ _ _ (fun e he => (hnone e he).2)⟩
  · exact ⟨allBefore_append_cons _ _ _ _ _ (fun e he => (ha e he).1)
        (fun e he => ⟨(hclean e he).1, (hclean e he).2.2.1⟩),
      allBefore_append_cons _ _ _ _ _ (fun e he => (ha e he).2)
        (fun e he => ⟨(hclean e he).2.1, (hclean e he).2.2.2⟩)⟩

/-- C5, as the code has it. Short write: in a run of `dumpModem` that returns, what follows a
write that returned a value different from the count requested and did not fail with `EINTR`
(a write that fails with `EINTR` is repeated by `TEMP_FAILURE_RETRY`) is the two removals:
no read and no write follows it, for every sequence of read and write results.  When, in
a run that reaches the copy loop, the write of iteration `n` is the first that returns a value
different from the count requested (the count its read returned), no call before it being
interrupted, and it did not fail with `EINTR`, the run returns; that write is the write number
`n` (from `0`), and the calls that follow it are the two removals.  And with interrupted calls:
when `R k` and `W k` are the numbers of the calls of `read` and of `write` that iteration `k`
keeps, every other call up to those of iteration `n` fails with `EINTR`, the iterations before
`n` keep a positive read and a write of that count, and iteration `n` keeps a positive read
and a write that returns another value without failing with `EINTR`, the run returns; no
earlier write of the run is such a write, and the calls that follow it are the two
removals. -/
theorem dumpModem_short_write (env : Env) (fd fdModem : Int) :
    (∀ fuel trace pre e post, dumpModem fuel env fd fdModem = some trace →
      trace = pre ++ e :: post → isEndingWrite e = true →
      post =
        [ Event.RunCommandToFd fd "RM MODEM DIR"
            ["/vendor/bin/sh", "-c", "/vendor/bin/rm -r " ++ (env.modemLogDir ++ "/modem_log")]
            (CommandOptions.WithTimeout 120),
          Event.RunCommandToFd fd "RM LOG"
            ["/vendor/bin/rm", env.modemLogDir ++ "/" ++ env.filePrefix ++ "all.tar"]
            (CommandOptions.WithTimeout 120) ] ∧
      ∀ x ∈ post, isRead x = false ∧ isWrite x = false) ∧
    (∀ fuel trace, dumpModem fuel env fd fdModem = some trace →
      allBefore isIo isEndingWrite trace = true) ∧
    (gatePassed env = true → empty env.filePrefix = false → 0 ≤ env.fdLog →
      ∀ n, (∀ j, j < n →
          0 < (env.reads j).bytes_read ∧ env.writes j = (env.reads j).bytes_read) →
        0 < (env.reads n).bytes_read →
        env.writes n ≠ (env.reads n).bytes_read →
        ¬ (env.writes n = -1 ∧ env.writeErrno n = EINTR) →
        ∃ before,
          (∀ fuel, n < fuel → dumpModem fuel env fd fdModem =
            some (before ++
              Event.write fdModem (env.reads n).stored (env.writes n) (env.writeErrno n) ::
              [ Event.RunCommandToFd fd "RM MODEM DIR"
                  ["/vendor/bin/sh", "-c",
                    "/vendor/bin/rm -r " ++ (env.modemLogDir ++ "/modem_log")]
                  (CommandOptions.WithTimeout 120),
                Event.RunCommandToFd fd "RM LOG"
                  ["/vendor/bin/rm", env.modemLogDir ++ "/" ++ env.filePrefix ++ "all.tar"]
                  (CommandOptions.WithTimeout 120) ])) ∧
          (∀ fuel t, dumpModem fuel env fd fdModem = some t →
            t = before ++
              Event.write fdModem (env.reads n).stored (env.writes n) (env.writeErrno n) ::
              cleanup fd env.modemLogDir env.filePrefix) ∧
          isEndingWrite
            (Event.write fdModem (env.reads n).stored (env.writes n) (env.writeErrno n)) = true ∧
          (before.filter isWrite).length = n ∧
          (∀ e ∈ before, isEndingWrite e = false)) ∧
    (gatePassed env = true → empty env.filePrefix = false → 0 ≤ env.fdLog →
      ∀ (n : Nat) (R W : Nat → Nat),
        (∀ k, k < n → R k < R (k + 1)) →
        (∀ k, k < n → W k < W (k + 1)) →
        (∀ i, i ≤ R n → (∀ k, k ≤ n → i ≠ R k) →
          (env.reads i).bytes_read = -1 ∧ (env.reads i).errno = EINTR) →
        (∀ i, i ≤ W n → (∀ k, k ≤ n → i ≠ W k) →
          env.writes i = -1 ∧ env.writeErrno i = EINTR) →
        (∀ k, k < n → 0 < (env.reads (R k)).bytes_read ∧
          env.writes (W k) = (env.reads (R k)).bytes_read) →
        0 < (env.reads (R n)).bytes_read →
        env.writes (W n) ≠ (env.reads (R n)).bytes_read →
        ¬ (env.writes (W n) = -1 ∧ env.writeErrno (W n) = EINTR) →
        ∃ before,
          (∀ fuel, R n < fuel → W n < fuel → dumpModem fuel env fd fdModem =
            some (before ++
              Event.write fdModem (env.reads (R n)).stored (env.writes (W n))
                (env.writeErrno (W n)) ::
              [ Event.RunCommandToFd fd "RM MODEM DIR"
                  ["/vendor/bin/sh", "-c",
                    "/vendor/bin/rm -r " ++ (env.modemLogDir ++ "/modem_log")]
                  (CommandOptions.WithTimeout 120),
                Event.RunCommandToFd fd "RM LOG"
                  ["/vendor/bin/rm", env.modemLogDir ++ "/" ++ env.filePrefix ++ "all.tar"]
                  (CommandOptions.WithTimeout 120) ])) ∧
          (∀ fuel t, dumpModem fuel env fd fdModem = some t →
            t = before ++
              Event.write fdModem (env.reads (R n)).stored (env.writes (W n))
                (env.writeErrno (W n)) ::
              cleanup fd env.modemLogDir env.filePrefix) ∧
          isEndingWrite
            (Event.write fdModem (env.reads (R n)).stored (env.writes (W n))
              (env.writeErrno (W n))) = true ∧
          (∀ e ∈ before, isEndingWrite e = false)) := by
  refine ⟨?_, fun fuel trace hrun => (dumpModem_io_order fuel env fd fdModem trace hrun).1, ?_,
    ?_⟩
  · intro fuel trace pre e post hrun hsplit he
    have hpost := dumpModem_after_ending fuel env fd fdModem trace pre post e hrun hsplit
      (Or.inl he)
    refine ⟨hpost, ?_⟩
    intro x hx
    rw [hpost] at hx
    exact ⟨(cleanup_calls fd _ _ x hx).2.1, (cleanup_calls fd _ _ x hx).1⟩
  · intro hgate hfile hopen n hfirst hread hshort hintr
    have hgo : ∀ j, j < n → goesOn env j = true := by
      intro j hj
      simp only [goesOn, Bool.and_eq_true, decide_eq_true_eq]
      exact hfirst j hj
    have hstop : stopsAt env n = true := by
      simp only [stopsAt, interruptedWrite, Bool.or_eq_true, Bool.and_eq_true,
        decide_eq_true_eq, Bool.not_eq_true', Bool.and_eq_false_iff, decide_eq_false_iff_not]
      exact Or.inr ⟨⟨hread, hshort⟩, not_and_or.mp hintr⟩
    have hlast : lastStep env fdModem n =
        [Event.read env.fdLog 65536 (env.reads n),
          Event.write fdModem (env.reads n).stored (env.writes n) (env.writeErrno n)] := by
      rw [lastStep, if_neg (not_le.mpr hread)]
      rfl
    have hrun : ∀ fuel, n < fuel → dumpModem fuel env fd fdModem =
        some ((beforeStream env fd ++ copySteps env fdModem n 0 ++
          [Event.read env.fdLog 65536 (env.reads n)]) ++
          Event.write fdModem (env.reads n).stored (env.writes n) (env.writeErrno n) ::
            cleanup fd env.modemLogDir env.filePrefix) := by
      intro fuel hfuel
      rw [dumpModem_of_stops env fd fdModem n fuel hgate hfile hopen hgo hstop hfuel, hlast]
      simp [List.append_assoc]
    have hending : isEndingWrite
        (Event.write fdModem (env.reads n).stored (env.writes n) (env.writeErrno n)) = true := by
      simp only [isEndingWrite, stored_length _ hread, Bool.and_eq_true, decide_eq_true_eq,
        Bool.not_eq_true', Bool.and_eq_false_iff, decide_eq_false_iff_not]
      exact ⟨hshort, not_and_or.mp hintr⟩
    refine ⟨_, hrun, ?_, hending, ?_, ?_⟩
    · intro fuel t ht
      exact dumpModem_det env fd fdModem _ _ _ _ ht (hrun (n + 1) (Nat.lt_succ_self _))
    · rw [List.filter_append, List.filter_append, filter_isWrite_beforeStream,
        List.length_append, List.length_append, copySteps_writes]
      simp [isWrite]
    · intro e he
      rcases dumpModem_ending (n + 1) env fd fdModem _ (hrun (n + 1) (Nat.lt_succ_self _)) with
        hnone | ⟨a, x, hsplit, ha⟩
      · exact (hnone e (List.mem_append_left _ he)).1
      · have hq : ∀ y ∈ cleanup fd env.modemLogDir env.filePrefix, isEndingWrite y = false :=
          fun y hy => (not_ending_of_not_io y (cleanup_calls fd _ _ y hy).2.1
            (cleanup_calls fd _ _ y hy).1).1
        have := split_unique isEndingWrite a _ _ _ x _ hsplit.symm
          (fun y hy => (ha y hy).1) hq hending
        rw [this.1] at he
        exact (ha e he).1
  · intro hgate hfile hopen n R W hRmono hWmono hRint hWint hgo hread hshort hintr
    have hnot : interruptedWrite env (W n) = false := by
      simp only [interruptedWrite, Bool.and_eq_false_iff, decide_eq_false_iff_not]
      exact not_and_or.mp hintr
    have hreach : ∀ fuel, R n < fuel → W n < fuel → ∃ init,
        streamLoop env fdModem fuel 0 0 =
          some (init ++ [Event.write fdModem (env.reads (R n)).stored (env.writes (W n))
            (env.writeErrno (W n))]) := by
      intro fuel h1 h2
      refine streamLoop_reaches_write env fdModem n R W 0 0 fuel (Nat.zero_le _) (Nat.zero_le _)
        hRmono hWmono ?_ ?_ hgo hread hshort hnot (by omega) (by omega)
      · intro i _ hi hne
        have := hRint i hi hne
        simp only [ReadResult.interrupted, Bool.and_eq_true, decide_eq_true_eq]
        exact this
      · intro i _ hi hne
        have := hWint i hi hne
        simp only [interruptedWrite, Bool.and_eq_true, decide_eq_true_eq]
        exact this
    obtain ⟨init, hinit⟩ := hreach (R n + W n + 1) (by omega) (by omega)
    have hrun : ∀ fuel, R n < fuel → W n < fuel → dumpModem fuel env fd fdModem =
        some ((beforeStream env fd ++ init) ++
          Event.write fdModem (env.reads (R n)).stored (env.writes (W n))
            (env.writeErrno (W n)) ::
            cleanup fd env.modemLogDir env.filePrefix) := by
      intro fuel h1 h2
      obtain ⟨init', hinit'⟩ := hreach fuel h1 h2
      have heq := streamLoop_det env fdModem _ _ 0 0 _ _ hinit' hinit
      rw [dumpModem_archived fuel env fd fdModem hgate hfile, stream, if_pos hopen, hinit', heq]
      simp [beforeStream, List.append_assoc]
    have hending : isEndingWrite
        (Event.write fdModem (env.reads (R n)).stored (env.writes (W n))
          (env.writeErrno (W n))) = true := by
      simp only [isEndingWrite, stored_length _ hread, Bool.and_eq_true, decide_eq_true_eq,
        Bool.not_eq_true', Bool.and_eq_false_iff, decide_eq_false_iff_not]
      exact ⟨hshort, not_and_or.mp hintr⟩
    have hrun0 := hrun (R n + W n + 1) (by omega) (by omega)
    refine ⟨_, hrun, ?_, hending, ?_⟩
    · intro fuel t ht
      exact dumpModem_det env fd fdModem _ _ _ _ ht hrun0
    · intro e he
      rcases dumpModem_ending _ env fd fdModem _ hrun0 with hnone | ⟨a, x, hsplit, ha⟩
      · exact (hnone e (List.mem_append_left _ he)).1
      · have hq : ∀ y ∈ cleanup fd env.modemLogDir env.filePrefix, isEndingWrite y = false :=
          fun y hy => (not_ending_of_not_io y (cleanup_calls fd _ _ y hy).2.1
            (cleanup_calls fd _ _ y hy).1).1
        have := split_unique isEndingWrite a _ _ _ x _ hsplit.symm
          (fun y hy => (ha y hy).1) hq hending
        rw [this.1] at he
        exact (ha e he).1

/-- The short write for a channel that accepts the first chunk and nothing of the second, in a
run without interrupted calls, and in a run whose first `write` and second `read` are
interrupted: there the kept reads are the calls 0 and 2, the kept writes the calls 1 and 2. -/
theorem dumpModem_short_write_witness :
    (∃ before,
      (∀ fuel, 1 < fuel → dumpModem fuel shortWriteEnv 3 4 =
        some (before ++ Event.write 4 [4, 5] 0 0 ::
          [ Event.RunCommandToFd 3 "RM MODEM DIR"
              ["/vendor/bin/sh", "-c", "/vendor/bin/rm -r /data/vendor/radio/modem_log"]
              (CommandOptions.WithTimeout 120),
            Event.RunCommandToFd 3 "RM LOG" ["/vendor/bin/rm", "/data/vendor/radio/sdm845_all.tar"]
              (CommandOptions.WithTimeout 120) ])) ∧
      (before.filter isWrite).length = 1) ∧
    (∃ before,
      (∀ fuel, 2 < fuel → dumpModem fuel retriedShortWriteEnv 3 4 =
        some (before ++ Event.write 4 [4, 5] 0 0 ::
          [ Event.RunCommandToFd 3 "RM MODEM DIR"
              ["/vendor/bin/sh", "-c", "/vendor/bin/rm -r /data/vendor/radio/modem_log"]
              (CommandOptions.WithTimeout 120),
            Event.RunCommandToFd 3 "RM LOG" ["/vendor/bin/rm", "/data/vendor/radio/sdm845_all.tar"]
              (CommandOptions.WithTimeout 120) ])) ∧
      before.filter isIo =
        [ Event.read 7 65536 (ReadResult.bytes [1, 2, 3]),
          Event.write 4 [1, 2, 3] (-1) 4,
          Event.write 4 [1, 2, 3] 3 0,
          Event.read 7 65536 (ReadResult.failure 4),
          Event.read 7 65536 (ReadResult.bytes [4, 5]) ]) := by
  constructor
  · obtain ⟨before, hrun, _, _, hcount, _⟩ :=
      (dumpModem_short_write shortWriteEnv 3 4).2.2.1 (by decide) (by decide) (by decide) 1
        (by intro j hj; interval_cases j; decide) (by decide) (by decide) (by decide)
    exact ⟨before, hrun, hcount⟩
  · obtain ⟨before, hrun, _, _, _⟩ :=
      (dumpModem_short_write retriedShortWriteEnv 3 4).2.2.2 (by decide) (by decide) (by decide)
        1 (fun k => 2 * k) (fun k => k + 1) (by decide) (by decide) (by decide) (by decide)
        (by decide) (by decide) (by decide) (by decide)
    refine ⟨before, fun fuel h => hrun fuel h h, ?_⟩
    have h3 := hrun 3 (by decide) (by decide)
    have hev : (dumpModem 3 retriedShortWriteEnv 3 4).map (fun t => t.filter isIo) =
        some [ Event.read 7 65536 (ReadResult.bytes [1, 2, 3]),
          Event.write 4 [1, 2, 3] (-1) 4,
          Event.write 4 [1, 2, 3] 3 0,
          Event.read 7 65536 (ReadResult.failure 4),
          Event.read 7 65536 (ReadResult.bytes [4, 5]),
          Event.write 4 [4, 5] 0 0 ] := by decide
    rw [h3] at hev
    simp only [Option.map_some', Option.some.injEq, List.filter_append] at hev
    exact List.append_cancel_right
      (hev : _ ++ [Event.write 4 [4, 5] 0 0] =
        [ Event.read 7 65536 (ReadResult.bytes [1, 2, 3]),
          Event.write 4 [1, 2, 3] (-1) 4,
          Event.write 4 [1, 2, 3] 3 0,
          Event.read 7 65536 (ReadResult.failure 4),
          Event.read 7 65536 (ReadResult.bytes [4, 5]) ] ++ [Event.write 4 [4, 5] 0 0])

/-- C5, as stated, fails: on `interruptedWriteEnv` the first read returns 3 bytes and the first
write returns `-1` (with `EINTR`), a value different from the count requested; yet the run
goes on with a second write and a second read. -/
theorem dumpModem_short_write_interrupted :
    (interruptedWriteEnv.reads 0).bytes_read = 3 ∧
    interruptedWriteEnv.writes 0 ≠ (interruptedWriteEnv.reads 0).bytes_read ∧
    (dumpModem 2 interruptedWriteEnv 3 4).map (allBefore isIo isShortWrite) = some false ∧
    (dumpModem 2 interruptedWriteEnv 3 4).map (fun trace => trace.filter isIo) =
      some [ Event.read 7 65536 (ReadResult.bytes [1, 2, 3]),
             Event.write 4 [1, 2, 3] (-1) 4,
             Event.write 4 [1, 2, 3] 3 0,
             Event.read 7 65536 (ReadResult.bytes []) ] := by
  decide

/-- C7. Gate of `dumpModem`: a run issues no command if and only if the log location is empty
or the build is a user build.  In that case it returns after evaluating the gate, having
issued no command, set no property and written nothing to the modem channel.  Otherwise it
runs the pipeline: after the gate come the two info commands and the creation of the staging
directory `<log_loc>/modem_log`, and the run returns once its copy loop has ended. -/
theorem dumpModem_gate (env : Env) (fd fdModem : Int) :
    (∀ fuel trace, dumpModem fuel env fd fdModem = some trace →
      ((∀ e ∈ trace, isCommand e = false) ↔ (env.modemLogDir = "" ∨ env.IsUserBuild = true))) ∧
    ((env.modemLogDir = "" ∨ env.IsUserBuild = true) →
      ∀ fuel, ∃ trace, dumpModem fuel env fd fdModem = some trace ∧
        (∀ e ∈ trace, e ∈ gate env) ∧
        (∀ e ∈ trace, isCommand e = false ∧ isSetProperty e = false ∧ isWrite e = false) ∧
        channelBytes fdModem trace = []) ∧
    (¬ (env.modemLogDir = "" ∨ env.IsUserBuild = true) →
      (∀ n fuel, loopEndsAt env n → n < fuel → (dumpModem fuel env fd fdModem).isSome = true) ∧
      ∀ fuel trace, dumpModem fuel env fd fdModem = some trace →
        ∃ rest, trace = gate env ++
          [ Event.RunCommandToFd fd "MODEM RFS INFO"
              ["/vendor/bin/sh", "-c", "find /data/vendor/rfs/mpss/OEMFI/"]
              (CommandOptions.WithTimeout 120),
            Event.RunCommandToFd fd "MODEM DIAG SYSTEM PROPERTIES"
              ["/vendor/bin/sh", "-c", "getprop | grep vendor.sys.modem.diag"]
              (CommandOptions.WithTimeout 120),
            Event.RunCommandToFd fd "MKDIR MODEM LOG"
              ["/vendor/bin/sh", "-c", "/vendor/bin/mkdir -p " ++ (env.modemLogDir ++ "/modem_log")]
              (CommandOptions.WithTimeout 120) ] ++ rest) := by
  have hskip : gatePassed env = false → ∀ fuel, ∃ trace,
      dumpModem fuel env fd fdModem = some trace ∧
        (∀ e ∈ trace, e ∈ gate env) ∧
        (∀ e ∈ trace, isCommand e = false ∧ isSetProperty e = false ∧ isWrite e = false) ∧
        channelBytes fdModem trace = [] := by
    intro hgate fuel
    refine ⟨_, dumpModem_skipped fuel env fd fdModem hgate, ?_⟩
    have hsub : ∀ e ∈ (if empty env.modemLogDir then (gate env).take 1 else gate env),
        e ∈ gate env := by
      intro e he
      split at he
      · exact List.mem_of_mem_take he
      · exact he
    have hkinds : ∀ e ∈ gate env,
        isCommand e = false ∧ isSetProperty e = false ∧ isWrite e = false := by
      intro e he
      simp only [gate, List.mem_cons, List.mem_singleton, List.not_mem_nil, or_false] at he
      rcases he with rfl | rfl <;> exact ⟨rfl, rfl, rfl⟩
    exact ⟨hsub, fun e he => hkinds e (hsub e he),
      channelBytes_of_no_write _ _ (fun e he => (hkinds e (hsub e he)).2.2)⟩
  have hpass : gatePassed env = true → ∀ fuel trace,
      dumpModem fuel env fd fdModem = some trace →
        ∃ rest, trace = gate env ++ modemInfo fd env.modemLogDir ++ rest := by
    intro hgate fuel trace hrun
    rcases dumpModem_passed fuel env fd fdModem trace hgate hrun with ⟨-, rfl⟩ | ⟨-, c, -, rfl⟩
    · exact ⟨readSwitches env ++ collectLogs env fd env.modemLogDir ++
        copyRilAndNetmgrLogs fd env.modemLogDir ++
        [Event.GetProperty MODEM_LOG_PREFIX_PROPERTY "" env.filePrefix],
        by simp only [collect, List.append_assoc]⟩
    · exact ⟨readSwitches env ++ collectLogs env fd env.modemLogDir ++
        copyRilAndNetmgrLogs fd env.modemLogDir ++
        [Event.GetProperty MODEM_LOG_PREFIX_PROPERTY "" env.filePrefix] ++
        archive env fd env.modemLogDir env.filePrefix ++ c ++
        cleanup fd env.modemLogDir env.filePrefix,
        by simp only [beforeStream, collect, List.append_assoc]⟩
  refine ⟨?_, ?_, ?_⟩
  · intro fuel trace hrun
    constructor
    · intro hnone
      by_contra hnot
      have hgate := (gatePassed_iff env).mpr hnot
      obtain ⟨rest, rfl⟩ := hpass hgate fuel trace hrun
      have := hnone (Event.RunCommandToFd fd "MODEM RFS INFO"
        ["/vendor/bin/sh", "-c", "find /data/vendor/rfs/mpss/OEMFI/"] options)
        (by simp [modemInfo])
      simp [isCommand] at this
    · intro hor e he
      have hgate : gatePassed env = false := by
        rw [← Bool.not_eq_true, gatePassed_iff]
        exact fun h => h hor
      obtain ⟨t, ht, -, hk, -⟩ := hskip hgate fuel
      rw [hrun] at ht
      cases ht
      exact (hk e he).1
  · intro hor
    apply hskip
    rw [← Bool.not_eq_true, gatePassed_iff]
    exact fun h => h hor
  · intro hnot
    have hgate := (gatePassed_iff env).mpr hnot
    exact ⟨fun n fuel hends hfuel => dumpModem_returns env fd fdModem n fuel hends hfuel,
      fun fuel trace hrun => hpass hgate fuel trace hrun⟩

/-- The gate on a user build: the run makes two calls and no command. -/
theorem dumpModem_gate_witness :
    ∃ trace, dumpModem 0 userBuildEnv 3 4 = some trace ∧
      (∀ e ∈ trace, e ∈ gate userBuildEnv) ∧
      (∀ e ∈ trace, isCommand e = false ∧ isSetProperty e = false ∧ isWrite e = false) ∧
      channelBytes 4 trace = [] :=
  (dumpModem_gate userBuildEnv 3 4).2.1 (Or.inr (by decide)) 0

theorem collectCall_no_archive (e : Event) (h : collectCall e = true) :
    isOpen e = false ∧ isRead e = false ∧ isWrite e = false ∧
      ∀ title ∈ archiveTitles, commandTitle e ≠ some title := by
  cases e <;> simp_all [collectCall, isOpen, isRead, isWrite, commandTitle]
  rename_i fd title cmd opts
  intro t ht hEq
  subst hEq
  revert ht h
  simp only [collectTitles, archiveTitles, List.mem_cons, List.mem_singleton, List.not_mem_nil,
    or_false]
  intro h ht
  rcases h with rfl | rfl | rfl | rfl | rfl | rfl <;> revert ht <;> decide

/-- C9. In a run of `dumpModem` that passes the gate, the commands of the archive block
(`TAR LOG`, `CHG PERM`, `RM MODEM DIR`, `RM LOG`) and the opening of the archive for streaming
occur if and only if the file name prefix is not empty.  With an empty prefix the run returns
after the collection: it has no such command, no `open`, `read` or `write`, and puts no byte
into the modem channel.  With a non-empty prefix every run that returns is the collection,
the `tar` command that archives the staging directory into `<log_loc>/<prefix>all.tar`, the
`chmod a+rw` of that file, its `open`, the reads and writes of the copy loop, and the two
removals (`rm -r` of the staging directory, `rm` of the archive); and the run does return,
with these two removals at its end, when the archive cannot be opened and when the copy loop
ends on a `read` that returns `0`, on a `read` that fails, or on a `write` that does not return
the count requested (a call that fails with `EINTR` is repeated and does not end the loop). -/
theorem dumpModem_archive_iff_filePrefix (env : Env) (fd fdModem : Int)
    (hgate : gatePassed env = true) :
    (∀ fuel trace, dumpModem fuel env fd fdModem = some trace →
      (∀ title ∈ archiveTitles,
        (∃ e ∈ trace, commandTitle e = some title) ↔ env.filePrefix ≠ "") ∧
      ((∃ e ∈ trace, isOpen e = true) ↔ env.filePrefix ≠ "")) ∧
    (env.filePrefix = "" →
      ∀ fuel, dumpModem fuel env fd fdModem = some (gate env ++ collect env fd env.modemLogDir) ∧
        (∀ e ∈ gate env ++ collect env fd env.modemLogDir,
          isOpen e = false ∧ isRead e = false ∧ isWrite e = false ∧
            ∀ title ∈ archiveTitles, commandTitle e ≠ some title) ∧
        channelBytes fdModem (gate env ++ collect env fd env.modemLogDir) = []) ∧
    (env.filePrefix ≠ "" →
      archive env fd env.modemLogDir env.filePrefix =
        [ Event.RunCommandToFd fd "TAR LOG"
            ["/vendor/bin/sh", "-c",
              "/vendor/bin/tar cvf " ++ (env.modemLogDir ++ "/" ++ env.filePrefix ++ "all.tar") ++
                " -C " ++ (env.modemLogDir ++ "/modem_log") ++ " ."]
            (CommandOptions.WithTimeout 120),
          Event.RunCommandToFd fd "CHG PERM"
            ["/vendor/bin/sh", "-c",
              "/vendor/bin/chmod a+rw " ++ (env.modemLogDir ++ "/" ++ env.filePrefix ++ "all.tar")]
            (CommandOptions.WithTimeout 120),
          Event.open_ (env.modemLogDir ++ "/" ++ env.filePrefix ++ "all.tar") env.fdLog ] ∧
      cleanup fd env.modemLogDir env.filePrefix =
        [ Event.RunCommandToFd fd "RM MODEM DIR"
            ["/vendor/bin/sh", "-c", "/vendor/bin/rm -r " ++ (env.modemLogDir ++ "/modem_log")]
            (CommandOptions.WithTimeout 120),
          Event.RunCommandToFd fd "RM LOG"
            ["/vendor/bin/rm", env.modemLogDir ++ "/" ++ env.filePrefix ++ "all.tar"]
            (CommandOptions.WithTimeout 120) ] ∧
      (∀ fuel trace, dumpModem fuel env fd fdModem = some trace →
        ∃ copied, (∀ e ∈ copied, isRead e = true ∨ isWrite e = true) ∧
          trace = gate env ++ collect env fd env.modemLogDir ++
            archive env fd env.modemLogDir env.filePrefix ++ copied ++
            cleanup fd env.modemLogDir env.filePrefix) ∧
      (env.fdLog < 0 → ∀ fuel, dumpModem fuel env fd fdModem =
        some (gate env ++ collect env fd env.modemLogDir ++
          archive env fd env.modemLogDir env.filePrefix ++
          cleanup fd env.modemLogDir env.filePrefix)) ∧
      (0 ≤ env.fdLog → ∀ n fuel,
        (∀ j, j < n → 0 < (env.reads j).bytes_read ∧ env.writes j = (env.reads j).bytes_read) →
        ((env.reads n).bytes_read = 0 ∨
          ((env.reads n).bytes_read < 0 ∧ (env.reads n).errno ≠ EINTR) ∨
          (0 < (env.reads n).bytes_read ∧ env.writes n ≠ (env.reads n).bytes_read ∧
            ¬ (env.writes n = -1 ∧ env.writeErrno n = EINTR))) →
        n < fuel →
        dumpModem fuel env fd fdModem =
          some (gate env ++ collect env fd env.modemLogDir ++
            archive env fd env.modemLogDir env.filePrefix ++
            (copySteps env fdModem n 0 ++ lastStep env fdModem n) ++
            cleanup fd env.modemLogDir env.filePrefix))) := by
  have hcollect : ∀ e ∈ gate env ++ collect env fd env.modemLogDir,
      isOpen e = false ∧ isRead e = false ∧ isWrite e = false ∧
        ∀ title ∈ archiveTitles, commandTitle e ≠ some title := by
    intro e he
    rcases List.mem_append.mp he with he | he
    · exact collectCall_no_archive e (gate_calls env e he)
    · exact collectCall_no_archive e (collect_calls env fd _ e he)
  refine ⟨?_, ?_, ?_⟩
  · intro fuel trace hrun
    rcases dumpModem_passed fuel env fd fdModem trace hgate hrun with
      ⟨hfile, rfl⟩ | ⟨hfile, c, -, rfl⟩
    · have hempty := (empty_iff _).mp hfile
      constructor
      · intro title ht
        constructor
        · rintro ⟨e, he, hte⟩
          exact absurd hte ((hcollect e he).2.2.2 title ht)
        · intro h; exact absurd hempty h
      · constructor
        · rintro ⟨e, he, hoe⟩
          rw [(hcollect e he).1] at hoe
          cases hoe
        · intro h; exact absurd hempty h
    · have hne := (empty_eq_false_iff _).mp hfile
      constructor
      · intro title ht
        refine ⟨fun _ => hne, fun _ => ?_⟩
        simp only [archiveTitles, List.mem_cons, List.mem_singleton, List.not_mem_nil,
          or_false] at ht
        rcases ht with rfl | rfl | rfl | rfl
        · exact ⟨_, List.mem_append_left _ (List.mem_append_left _ (List.mem_append_right _
            (List.mem_cons_self _ _))), rfl⟩
        · exact ⟨_, List.mem_append_left _ (List.mem_append_left _ (List.mem_append_right _
            (List.mem_cons_of_mem _ (List.mem_cons_self _ _)))), rfl⟩
        · exact ⟨_, List.mem_append_right _ (List.mem_cons_self _ _), rfl⟩
        · exact ⟨_, List.mem_append_right _ (List.mem_cons_of_mem _ (List.mem_cons_self _ _)),
            rfl⟩
      · refine ⟨fun _ => hne, fun _ => ?_⟩
        exact ⟨_, List.mem_append_left _ (List.mem_append_left _ (List.mem_append_right _
          (List.mem_cons_of_mem _ (List.mem_cons_of_mem _ (List.mem_cons_self _ _))))), rfl⟩
  · intro hempty fuel
    have hfile := (empty_iff _).mpr hempty
    exact ⟨dumpModem_not_archived fuel env fd fdModem hgate hfile, hcollect,
      channelBytes_of_no_write _ _ (fun e he => (hcollect e he).2.2.1)⟩
  · intro hne
    have hfile := (empty_eq_false_iff _).mpr hne
    refine ⟨rfl, rfl, ?_, ?_, ?_⟩
    · intro fuel trace hrun
      rcases dumpModem_passed fuel env fd fdModem trace hgate hrun with
        ⟨hp, -⟩ | ⟨-, c, hc, rfl⟩
      · rw [hfile] at hp; cases hp
      · exact ⟨c, fun e he => (stream_calls fuel env fdModem c hc e he).1, rfl⟩
    · intro hopen fuel
      rw [dumpModem_archived fuel env fd fdModem hgate hfile, stream,
        if_neg (by omega)]
      simp [beforeStream]
    · intro hopen n fuel hgo hend hfuel
      have := dumpModem_of_stops env fd fdModem n fuel hgate hfile hopen ?_ ?_ hfuel
      · rw [this]; rfl
      · intro j hj
        simp only [goesOn, Bool.and_eq_true, decide_eq_true_eq]
        exact hgo j hj
      · simp only [stopsAt, ReadResult.interrupted, interruptedWrite, Bool.or_eq_true,
          Bool.and_eq_true, decide_eq_true_eq, Bool.not_eq_true', Bool.and_eq_false_iff,
          decide_eq_false_iff_not]
        rcases hend with h | h | h
        · exact Or.inl (Or.inl h)
        · exact Or.inl (Or.inr ⟨h.1, Or.inr h.2⟩)
        · exact Or.inr ⟨⟨h.1, h.2.1⟩, not_and_or.mp h.2.2⟩

/-- The archive block without a prefix, where the run is the collection for any fuel, and
with the prefix `sdm845_`, where the run with fuel `3` has the archive commands, the `open` and
the two removals around the calls of the copy loop. -/
theorem dumpModem_archive_iff_filePrefix_witness :
    (dumpModem 0 noPrefixEnv 3 4 =
        some (gate noPrefixEnv ++ collect noPrefixEnv 3 "/data/vendor/radio") ∧
      channelBytes 4 (gate noPrefixEnv ++ collect noPrefixEnv 3 "/data/vendor/radio") = []) ∧
    dumpModem 3 exampleEnv 3 4 =
      some (gate exampleEnv ++ collect exampleEnv 3 "/data/vendor/radio" ++
        [ Event.RunCommandToFd 3 "TAR LOG"
            ["/vendor/bin/sh", "-c",
              "/vendor/bin/tar cvf /data/vendor/radio/sdm845_all.tar -C /data/vendor/radio/modem_log ."]
            (CommandOptions.WithTimeout 120),
          Event.RunCommandToFd 3 "CHG PERM"
            ["/vendor/bin/sh", "-c", "/vendor/bin/chmod a+rw /data/vendor/radio/sdm845_all.tar"]
            (CommandOptions.WithTimeout 120),
          Event.open_ "/data/vendor/radio/sdm845_all.tar" 7 ] ++
        [ Event.read 7 65536 (ReadResult.bytes [1, 2, 3]), Event.write 4 [1, 2, 3] 3 0,
          Event.read 7 65536 (ReadResult.bytes [4]), Event.write 4 [4] 1 0,
          Event.read 7 65536 (ReadResult.bytes []) ] ++
        [ Event.RunCommandToFd 3 "RM MODEM DIR"
            ["/vendor/bin/sh", "-c", "/vendor/bin/rm -r /data/vendor/radio/modem_log"]
            (CommandOptions.WithTimeout 120),
          Event.RunCommandToFd 3 "RM LOG" ["/vendor/bin/rm", "/data/vendor/radio/sdm845_all.tar"]
            (CommandOptions.WithTimeout 120) ]) :=
  let h := (dumpModem_archive_iff_filePrefix noPrefixEnv 3 4 (by decide)).2.1 (by decide) 0
  let h' := (dumpModem_archive_iff_filePrefix exampleEnv 3 4 (by decide)).2.2 (by decide)
  ⟨⟨h.1, h.2.2⟩,
    (h'.2.2.2.2 (by decide) 2 3 (by intro j hj; interval_cases j <;> decide) (by decide)
      (by decide)).trans (by decide)⟩

/-! ## The diag-log branch -/

theorem head_calls (env : Env) (fd : Int) : ∀ e ∈ head env fd,
    isDiagControl e = false ∧ isCpModemLog e = false ∧ isCpDiagLog e = false ∧
      isRemoval e = false := by
  intro e he
  simp only [head, gate, modemInfo, readSwitches, List.mem_append, List.mem_cons,
    List.mem_singleton, List.not_mem_nil, or_false] at he
  rcases he with ((rfl | rfl) | (rfl | rfl | rfl)) | ((rfl | he) | rfl)
  · exact ⟨rfl, rfl, rfl, rfl⟩
  · exact ⟨rfl, rfl, rfl, rfl⟩
  · exact ⟨rfl, rfl, rfl, rfl⟩
  · exact ⟨rfl, rfl, rfl, rfl⟩
  · exact ⟨rfl, rfl, rfl, rfl⟩
  · exact ⟨rfl, rfl, rfl, rfl⟩
  · split at he
    · rw [List.mem_singleton.mp he]; exact ⟨rfl, rfl, rfl, rfl⟩
    · cases he
  · exact ⟨rfl, rfl, rfl, rfl⟩

theorem dumpDiagLogs_quiet (scandirResult : Option (List String)) (maxFileNum : Int) (fd : Int)
    (srcDir destDir : String) :
    ∀ e ∈ dumpDiagLogs scandirResult maxFileNum fd srcDir destDir,
      isDiagControl e = false ∧ isCpModemLog e = false ∧ isRemoval e = false := by
  intro e he
  rcases dumpDiagLogs_calls _ _ _ _ _ e he with rfl | rfl | ⟨n, rfl⟩
  · exact ⟨rfl, rfl, rfl⟩
  · exact ⟨rfl, rfl, rfl⟩
  · exact ⟨rfl, rfl, rfl⟩

theorem pollLoop_quiet (mdlogStatus : Nat → Bool) (left k : Nat) :
    ∀ e ∈ pollLoop mdlogStatus left k,
      isSetProperty e = false ∧ isCpModemLog e = false ∧ isRemoval e = false := by
  intro e he
  rcases pollLoop_calls _ _ _ e he with ⟨v, rfl⟩ | rfl <;> exact ⟨rfl, rfl, rfl⟩

theorem copyRilAndNetmgrLogs_calls (fd : Int) (modemLogDir : String) :
    ∀ e ∈ copyRilAndNetmgrLogs fd modemLogDir,
      isDiagControl e = false ∧ isCpModemLog e = true ∧ isRemoval e = false := by
  intro e he
  simp only [copyRilAndNetmgrLogs, List.mem_map] at he
  obtain ⟨f, -, rfl⟩ := he
  exact ⟨rfl, rfl, rfl⟩

theorem isDiagControl_of_io (e : Event) (h : isRead e = true ∨ isWrite e = true) :
    isDiagControl e = false := by
  cases e <;> simp_all [isRead, isWrite, isDiagControl, isSleep, isSetProperty, isStatusRead]

/-- The calls that follow the collection in a run that passes the gate and returns: none for
an empty prefix, the archive block otherwise. -/
theorem dumpModem_tail (fuel : Nat) (env : Env) (fd fdModem : Int) (trace : List Event)
    (hgate : gatePassed env = true) (hrun : dumpModem fuel env fd fdModem = some trace) :
    ∃ archived, trace = gate env ++ collect env fd env.modemLogDir ++ archived ∧
      (∀ e ∈ archived, isDiagControl e = false) ∧
      (∀ e ∈ archived, isCpModemLog e = false ∧ isCpDiagLog e = false) ∧
      (archived = [] ∨ ∃ copied, archived = archive env fd env.modemLogDir env.filePrefix ++
        copied ++ cleanup fd env.modemLogDir env.filePrefix) := by
  rcases dumpModem_passed fuel env fd fdModem trace hgate hrun with ⟨-, rfl⟩ | ⟨-, c, hc, rfl⟩
  · exact ⟨[], by simp, by simp, by simp, Or.inl rfl⟩
  · refine ⟨archive env fd env.modemLogDir env.filePrefix ++ c ++
      cleanup fd env.modemLogDir env.filePrefix, by simp [beforeStream, List.append_assoc], ?_, ?_,
      Or.inr ⟨c, rfl⟩⟩
    · intro e he
      simp only [List.mem_append] at he
      rcases he with (he | he) | he
      · simp only [archive, List.mem_cons, List.mem_singleton, List.not_mem_nil, or_false] at he
        rcases he with rfl | rfl | rfl <;> rfl
      · exact isDiagControl_of_io e (stream_calls fuel env fdModem c hc e he).1
      · simp only [cleanup, List.mem_cons, List.mem_singleton, List.not_mem_nil, or_false] at he
        rcases he with rfl | rfl <;> rfl
    · intro e he
      simp only [List.mem_append] at he
      rcases he with (he | he) | he
      · simp only [archive, List.mem_cons, List.mem_singleton, List.not_mem_nil, or_false] at he
        rcases he with rfl | rfl | rfl <;> exact ⟨rfl, rfl⟩
      · have := (stream_calls fuel env fdModem c hc e he).2.2
        cases e <;> simp_all [isCommand, isCpModemLog, isCpDiagLog, commandTitle]
      · simp only [cleanup, List.mem_cons, List.mem_singleton, List.not_mem_nil, or_false] at he
        rcases he with rfl | rfl <;> exact ⟨rfl, rfl⟩

/-- The shape of a run that takes the diag-log branch and returns. -/
theorem dumpModem_diag (fuel : Nat) (env : Env) (fd fdModem : Int) (trace : List Event)
    (hbranch : diagBranchTaken env = true) (hrun : dumpModem fuel env fd fdModem = some trace) :
    ∃ archived, trace = head env fd ++ diagLogBranch env fd env.modemLogDir ++
        (copyRilAndNetmgrLogs fd env.modemLogDir ++
          [Event.GetProperty MODEM_LOG_PREFIX_PROPERTY "" env.filePrefix] ++ archived) ∧
      (∀ e ∈ archived, isDiagControl e = false) ∧
      (∀ e ∈ archived, isCpModemLog e = false ∧ isCpDiagLog e = false) ∧
      (archived = [] ∨ ∃ copied, archived = archive env fd env.modemLogDir env.filePrefix ++
        copied ++ cleanup fd env.modemLogDir env.filePrefix) := by
  simp only [diagBranchTaken, Bool.and_eq_true, Bool.not_eq_true'] at hbranch
  obtain ⟨⟨hgate, hsmlog⟩, hdiag⟩ := hbranch
  obtain ⟨archived, rfl, h1, h2, h3⟩ := dumpModem_tail fuel env fd fdModem trace hgate hrun
  refine ⟨archived, ?_, h1, h2, h3⟩
  simp [head, collect, collectLogs, hsmlog, hdiag, List.append_assoc]

theorem isDiagControl_false (e : Event) (h : isDiagControl e = false) :
    isSleep e = false ∧ isSetProperty e = false ∧ isStatusRead e = false ∧
      isRestore e = false := by
  simp only [isDiagControl, Bool.or_eq_false_iff] at h
  refine ⟨h.1.1, h.1.2, h.2, ?_⟩
  simp only [isRestore, decide_eq_false_iff_not]
  intro he
  rw [he] at h
  exact absurd h.1.2 (by decide)

theorem filter_nil_of (p : Event → Bool) (l : List Event) (h : ∀ e ∈ l, p e = false) :
    l.filter p = [] := by
  rw [List.filter_eq_nil_iff]
  intro e he
  simp [h e he]

theorem sleptSeconds_append (a b : List Event) :
    sleptSeconds (a ++ b) = sleptSeconds a + sleptSeconds b := by
  induction a with
  | nil => simp [sleptSeconds]
  | cons e a ih => cases e <;> simp [sleptSeconds, ih, Nat.add_assoc]

theorem sleptSeconds_of_no_sleep (l : List Event) (h : ∀ e ∈ l, isSleep e = false) :
    sleptSeconds l = 0 := by
  induction l with
  | nil => rfl
  | cons e l ih =>
    have he := h e (List.mem_cons_self _ _)
    have hl := ih (fun x hx => h x (List.mem_cons_of_mem _ hx))
    cases e <;> simp_all [sleptSeconds, isSleep]

/-- The first poll that sees the logger stopped ends the poll loop after one read and one
sleep of a second. -/
theorem pollLoop_stopped (mdlogStatus : Nat → Bool) (left k : Nat) (h : mdlogStatus k = false) :
    pollLoop mdlogStatus (left + 1) k =
      [Event.GetBoolProperty DIAG_MDLOG_STATUS_PROPERTY false false, Event.sleep 1] := by
  simp [pollLoop, h]

/-- The property writes of a run that takes the diag-log branch. -/
theorem filter_isSetProperty_diag (fuel : Nat) (env : Env) (fd fdModem : Int)
    (trace : List Event) (hbranch : diagBranchTaken env = true)
    (hrun : dumpModem fuel env fd fdModem = some trace) :
    trace.filter isSetProperty =
      if env.mdlogStatus 0 = true then [stopDiag, restoreDiag] else [] := by
  obtain ⟨archived, rfl, harch, -, -⟩ := dumpModem_diag fuel env fd fdModem trace hbranch hrun
  have h1 := filter_nil_of isSetProperty _
    (fun e he => (isDiagControl_false e ((head_calls env fd e he).1)).2.1)
  have h2 := filter_nil_of isSetProperty _
    (fun e he => (pollLoop_quiet env.mdlogStatus 30 1 e he).1)
  have h3 := filter_nil_of isSetProperty _
    (fun e he => (isDiagControl_false e ((dumpDiagLogs_quiet env.scandirResult env.maxFileNum fd
      diagLogDir (modemLogAllDir env.modemLogDir) e he).1)).2.1)
  have h4 := filter_nil_of isSetProperty _
    (fun e he => (isDiagControl_false e
      ((copyRilAndNetmgrLogs_calls fd env.modemLogDir e he).1)).2.1)
  have h5 := filter_nil_of isSetProperty _
    (fun e he => (isDiagControl_false e (harch e he)).2.1)
  simp only [diagLogBranch, List.filter_append, h1, h2, h3, h4, h5]
  cases env.mdlogStatus 0 <;> simp [isSetProperty, stopDiag, restoreDiag]

/-- C3. In a run of `dumpModem` that takes the diag-log branch, the property writes are the
stop and the restore when the first read of the status property (the one of line 147, which no
property write, sleep or status read precedes) answered "running", and there is none when it
answered "not running".  So the command property is set to `"true"` if and only if that first
read answered "running"; the later reads of the status (the poll loop) and the log scan have no
part in it: two runs whose first status read is the same make the same property writes.  The
run returns once its copy loop has ended. -/
theorem dumpModem_restore_iff_started (env : Env) (fd fdModem : Int)
    (hbranch : diagBranchTaken env = true) :
    (∀ n fuel, loopEndsAt env n → n < fuel → (dumpModem fuel env fd fdModem).isSome = true) ∧
    (∀ fuel trace, dumpModem fuel env fd fdModem = some trace →
      trace.filter isSetProperty =
        (if env.mdlogStatus 0 = true then
          [Event.SetProperty DIAG_MDLOG_PROPERTY "false",
            Event.SetProperty DIAG_MDLOG_PROPERTY "true"]
         else []) ∧
      (Event.SetProperty DIAG_MDLOG_PROPERTY "true" ∈ trace ↔ env.mdlogStatus 0 = true) ∧
      (env.mdlogStatus 0 = false → ∀ e ∈ trace, isSetProperty e = false) ∧
      (∃ before after, trace = before ++
          Event.GetBoolProperty DIAG_MDLOG_STATUS_PROPERTY false (env.mdlogStatus 0) :: after ∧
        ∀ e ∈ before, isDiagControl e = false)) ∧
    (∀ env' fd' fdModem' fuel fuel' trace trace', diagBranchTaken env' = true →
      env'.mdlogStatus 0 = env.mdlogStatus 0 →
      dumpModem fuel env fd fdModem = some trace →
      dumpModem fuel' env' fd' fdModem' = some trace' →
      trace'.filter isSetProperty = trace.filter isSetProperty) := by
  refine ⟨fun n fuel hends hfuel => dumpModem_returns env fd fdModem n fuel hends hfuel, ?_, ?_⟩
  · intro fuel trace hrun
    have hfilter := filter_isSetProperty_diag fuel env fd fdModem trace hbranch hrun
    have hmem : ∀ e, e ∈ trace ∧ isSetProperty e = true ↔
        e ∈ (if env.mdlogStatus 0 = true then [stopDiag, restoreDiag] else []) := by
      intro e
      rw [← hfilter, List.mem_filter]
    refine ⟨hfilter, ?_, ?_, ?_⟩
    · constructor
      · intro h
        have := (hmem restoreDiag).mp ⟨h, rfl⟩
        by_contra hs
        rw [if_neg hs] at this
        cases this
      · intro hs
        have := (hmem restoreDiag).mpr (by rw [if_pos hs]; simp)
        exact this.1
    · intro hs e he
      cases hp : isSetProperty e with
      | false => rfl
      | true =>
        have := (hmem e).mp ⟨he, hp⟩
        rw [if_neg (by simp [hs])] at this
        cases this
    · obtain ⟨archived, rfl, -, -, -⟩ := dumpModem_diag fuel env fd fdModem trace hbranch hrun
      refine ⟨head env fd,
        (if env.mdlogStatus 0 = true then [Event.SetProperty DIAG_MDLOG_PROPERTY "false"]
          else []) ++
        pollLoop env.mdlogStatus 30 1 ++
        dumpDiagLogs env.scandirResult env.maxFileNum fd diagLogDir
          (modemLogAllDir env.modemLogDir) ++
        (if env.mdlogStatus 0 = true then [Event.SetProperty DIAG_MDLOG_PROPERTY "true"]
          else []) ++
        (copyRilAndNetmgrLogs fd env.modemLogDir ++
          [Event.GetProperty MODEM_LOG_PREFIX_PROPERTY "" env.filePrefix] ++ archived),
        ?_, fun e he => (head_calls env fd e he).1⟩
      simp only [diagLogBranch, List.append_assoc, List.singleton_append, List.cons_append,
        List.nil_append]
  · intro env' fd' fdModem' fuel fuel' trace trace' hbranch' hsame hrun hrun'
    rw [filter_isSetProperty_diag fuel env fd fdModem trace hbranch hrun,
      filter_isSetProperty_diag fuel' env' fd' fdModem' trace' hbranch' hrun', hsame]

/-- The restore with the logger not running: the run returns with fuel `3` and writes no
property. -/
theorem dumpModem_restore_iff_started_witness :
    ∃ trace, dumpModem 3 notRunningEnv 3 4 = some trace ∧
      ∀ e ∈ trace, isSetProperty e = false := by
  have h := dumpModem_restore_iff_started notRunningEnv 3 4 (by decide)
  obtain ⟨trace, hrun⟩ := Option.isSome_iff_exists.mp
    (h.1 2 3 ⟨by decide, by decide⟩ (by decide))
  exact ⟨trace, hrun, (h.2.1 3 trace hrun).2.2.1 (by decide)⟩

/-- The sleeps and status reads of a run made of calls that do not sleep and read the status
once, one poll that sees the logger stopped, and calls that neither sleep nor read the status. -/
theorem quiesced_counts (before rest : List Event) (first : Event) (dir : String)
    (result : Option (List String))
    (hbefore : ∀ e ∈ before, isSleep e = false)
    (hreads : before.filter isStatusRead = [first])
    (hrest : ∀ e ∈ rest, isSleep e = false ∧ isStatusRead e = false) :
    sleptSeconds (before ++
        [Event.GetBoolProperty DIAG_MDLOG_STATUS_PROPERTY false false, Event.sleep 1] ++
        Event.scandir dir result :: rest) = 1 ∧
    ((before ++ [Event.GetBoolProperty DIAG_MDLOG_STATUS_PROPERTY false false, Event.sleep 1] ++
        Event.scandir dir result :: rest).filter isSleep).length = 1 ∧
    ((before ++ [Event.GetBoolProperty DIAG_MDLOG_STATUS_PROPERTY false false, Event.sleep 1] ++
        Event.scandir dir result :: rest).filter isStatusRead).length = 2 := by
  have h1 := filter_nil_of isSleep _ hbefore
  have h2 := filter_nil_of isSleep _ (fun e he => (hrest e he).1)
  have h3 := filter_nil_of isStatusRead _ (fun e he => (hrest e he).2)
  refine ⟨?_, ?_, ?_⟩
  · rw [sleptSeconds_append, sleptSeconds_append, sleptSeconds_of_no_sleep _ hbefore]
    simp only [sleptSeconds]
    rw [sleptSeconds_of_no_sleep _ (fun e he => (hrest e he).1)]
  · rw [List.filter_append, List.filter_append, h1]
    simp [List.filter_cons, isSleep, h2]
  · rw [List.filter_append, List.filter_append, hreads]
    simp [List.filter_cons, isStatusRead, h3]

/-- C8. Already-quiesced detection: in a run of `dumpModem` that takes the diag-log branch,
when the first poll of the wait loop reads the status as stopped, the loop is that one read
followed by one sleep of a second, and the log scan (`scandir`) comes right after it.  No call
before the loop and no call from the scan on sleeps, so the run sleeps one second in total;
it reads the status twice: once at the start of the branch and once in the loop. -/
theorem dumpModem_already_quiesced (env : Env) (fd fdModem : Int)
    (hbranch : diagBranchTaken env = true) (hstopped : env.mdlogStatus 1 = false) :
    (∀ n fuel, loopEndsAt env n → n < fuel → (dumpModem fuel env fd fdModem).isSome = true) ∧
    pollLoop env.mdlogStatus 30 1 =
      [Event.GetBoolProperty DIAG_MDLOG_STATUS_PROPERTY false false, Event.sleep 1] ∧
    (∀ fuel trace, dumpModem fuel env fd fdModem = some trace →
      (∃ before rest, trace = before ++
          [Event.GetBoolProperty DIAG_MDLOG_STATUS_PROPERTY false false, Event.sleep 1] ++
          Event.scandir diagLogDir env.scandirResult :: rest ∧
        (∀ e ∈ before, isSleep e = false) ∧
        before.filter isStatusRead =
          [Event.GetBoolProperty DIAG_MDLOG_STATUS_PROPERTY false (env.mdlogStatus 0)] ∧
        (∀ e ∈ rest, isSleep e = false ∧ isStatusRead e = false)) ∧
      sleptSeconds trace = 1 ∧
      (trace.filter isSleep).length = 1 ∧
      (trace.filter isStatusRead).length = 2) := by
  have hpoll := pollLoop_stopped env.mdlogStatus 29 1 hstopped
  refine ⟨fun n fuel hends hfuel => dumpModem_returns env fd fdModem n fuel hends hfuel,
    hpoll, ?_⟩
  intro fuel trace hrun
  obtain ⟨archived, rfl, harch, -, -⟩ := dumpModem_diag fuel env fd fdModem trace hbranch hrun
  -- the calls before the loop, and those after the `scandir`
  obtain ⟨scan, hscan⟩ : ∃ scan, dumpDiagLogs env.scandirResult env.maxFileNum fd diagLogDir
      (modemLogAllDir env.modemLogDir) = Event.scandir diagLogDir env.scandirResult :: scan :=
    ⟨_, rfl⟩
  have hscanq : ∀ e ∈ scan, isDiagControl e = false := by
    intro e he
    exact (dumpDiagLogs_quiet env.scandirResult env.maxFileNum fd diagLogDir
      (modemLogAllDir env.modemLogDir) e (by rw [hscan]; exact List.mem_cons_of_mem _ he)).1
  have hshape : head env fd ++ diagLogBranch env fd env.modemLogDir ++
      (copyRilAndNetmgrLogs fd env.modemLogDir ++
        [Event.GetProperty MODEM_LOG_PREFIX_PROPERTY "" env.filePrefix] ++ archived) =
      (head env fd ++
        ([Event.GetBoolProperty DIAG_MDLOG_STATUS_PROPERTY false (env.mdlogStatus 0)] ++
          if env.mdlogStatus 0 = true then [stopDiag] else [])) ++
      [Event.GetBoolProperty DIAG_MDLOG_STATUS_PROPERTY false false, Event.sleep 1] ++
      Event.scandir diagLogDir env.scandirResult ::
        (scan ++ (if env.mdlogStatus 0 = true then [restoreDiag] else []) ++
          (copyRilAndNetmgrLogs fd env.modemLogDir ++
            [Event.GetProperty MODEM_LOG_PREFIX_PROPERTY "" env.filePrefix] ++ archived)) := by
    simp only [diagLogBranch, hpoll, hscan, stopDiag, restoreDiag, List.append_assoc,
      List.singleton_append, List.cons_append, List.nil_append]
  have hbefore : ∀ e ∈ head env fd ++
      ([Event.GetBoolProperty DIAG_MDLOG_STATUS_PROPERTY false (env.mdlogStatus 0)] ++
        if env.mdlogStatus 0 = true then [stopDiag] else []), isSleep e = false := by
    intro e he
    simp only [List.mem_append, List.mem_singleton] at he
    rcases he with he | rfl | he
    · exact (isDiagControl_false e (head_calls env fd e he).1).1
    · rfl
    · split at he
      · rw [List.mem_singleton.mp he]; rfl
      · cases he
  have hbeforeReads : (head env fd ++
      ([Event.GetBoolProperty DIAG_MDLOG_STATUS_PROPERTY false (env.mdlogStatus 0)] ++
        if env.mdlogStatus 0 = true then [stopDiag] else [])).filter isStatusRead =
      [Event.GetBoolProperty DIAG_MDLOG_STATUS_PROPERTY false (env.mdlogStatus 0)] := by
    rw [List.filter_append, filter_nil_of isStatusRead _
      (fun e he => (isDiagControl_false e (head_calls env fd e he).1).2.2.1)]
    cases env.mdlogStatus 0 <;> simp [isStatusRead, stopDiag]
  have hrest : ∀ e ∈ scan ++ (if env.mdlogStatus 0 = true then [restoreDiag] else []) ++
      (copyRilAndNetmgrLogs fd env.modemLogDir ++
        [Event.GetProperty MODEM_LOG_PREFIX_PROPERTY "" env.filePrefix] ++ archived),
      isSleep e = false ∧ isStatusRead e = false := by
    intro e he
    simp only [List.mem_append, List.mem_singleton] at he
    rcases he with (he | he) | (he | rfl) | he
    · exact ⟨(isDiagControl_false e (hscanq e he)).1, (isDiagControl_false e (hscanq e he)).2.2.1⟩
    · split at he
      · rw [List.mem_singleton.mp he]; exact ⟨rfl, rfl⟩
      · cases he
    · have := isDiagControl_false e (copyRilAndNetmgrLogs_calls fd env.modemLogDir e he).1
      exact ⟨this.1, this.2.2.1⟩
    · exact ⟨rfl, rfl⟩
    · exact ⟨(isDiagControl_false e (harch e he)).1, (isDiagControl_false e (harch e he)).2.2.1⟩
  rw [hshape]
  exact ⟨⟨_, _, rfl, hbefore, hbeforeReads, hrest⟩,
    quiesced_counts _ _ _ _ _ hbefore hbeforeReads hrest⟩

/-- The wait loop with the logger seen stopped at the first poll: the run returns with fuel
`3` and has slept one second. -/
theorem dumpModem_already_quiesced_witness :
    ∃ trace, dumpModem 3 quiescedEnv 3 4 = some trace ∧ sleptSeconds trace = 1 ∧
      (trace.filter isStatusRead).length = 2 := by
  have h := dumpModem_already_quiesced quiescedEnv 3 4 (by decide) (by decide)
  obtain ⟨trace, hrun⟩ := Option.isSome_iff_exists.mp
    (h.1 2 3 ⟨by decide, by decide⟩ (by decide))
  exact ⟨trace, hrun, (h.2.2 3 trace hrun).2.1, (h.2.2 3 trace hrun).2.2.2⟩

/-- The order of the calls in a run made of calls `before` that are neither the restore, nor
a copy of an auxiliary log, nor a removal; the restore; the copies of the auxiliary logs; and
calls `after` that are neither the restore nor a copy. -/
theorem order_of_shape (before aux after : List Event)
    (hbefore : ∀ e ∈ before,
      isRestore e = false ∧ isCpModemLog e = false ∧ isRemoval e = false)
    (haux : ∀ e ∈ aux, isRestore e = false ∧ isCpModemLog e = true ∧ isRemoval e = false ∧
      isCpDiagLog e = false)
    (hafter : ∀ e ∈ after,
      isRestore e = false ∧ isCpModemLog e = false ∧ isCpDiagLog e = false)
    (hne : aux ≠ []) :
    allBefore isCpDiagLog isRestore (before ++ [restoreDiag] ++ aux ++ after) = true ∧
    allBefore isRestore isCpModemLog (before ++ [restoreDiag] ++ aux ++ after) = true ∧
    allBefore isRestore isRemoval (before ++ [restoreDiag] ++ aux ++ after) = true ∧
    allBefore isCpModemLog isRemoval (before ++ [restoreDiag] ++ aux ++ after) = true ∧
    ((before ++ [restoreDiag] ++ aux ++ after).filter isRestore).length = 1 ∧
    ((before ++ [restoreDiag] ++ aux ++ after).filter isCpModemLog).length = aux.length ∧
    allBefore isCpModemLog isRestore (before ++ [restoreDiag] ++ aux ++ after) = false := by
  have hr : isRestore restoreDiag = true ∧ isCpModemLog restoreDiag = false ∧
      isRemoval restoreDiag = false ∧ isCpDiagLog restoreDiag = false := by decide
  refine ⟨?_, ?_, ?_, ?_, ?_, ?_, ?_⟩
  · -- no restore before the restore itself, no copy of a diag log from it on
    have : before ++ [restoreDiag] ++ aux ++ after = before ++ ([restoreDiag] ++ aux ++ after) := by
      simp only [List.append_assoc]
    rw [this]
    apply allBefore_append_of
    · exact fun e he => (hbefore e he).1
    · intro e he
      simp only [List.mem_append, List.mem_singleton] at he
      rcases he with (rfl | he) | he
      · exact hr.2.2.2
      · exact (haux e he).2.2.2
      · exact (hafter e he).2.2
  · -- no copy of an auxiliary log up to the restore, no restore after it
    have : before ++ [restoreDiag] ++ aux ++ after = (before ++ [restoreDiag]) ++ (aux ++ after) := by
      simp only [List.append_assoc]
    rw [this]
    apply allBefore_append_of
    · intro e he
      simp only [List.mem_append, List.mem_singleton] at he
      rcases he with he | rfl
      · exact (hbefore e he).2.1
      · exact hr.2.1
    · intro e he
      rcases List.mem_append.mp he with he | he
      · exact (haux e he).1
      · exact (hafter e he).1
  · -- no removal up to the copies of the auxiliary logs, no restore after the restore
    have : before ++ [restoreDiag] ++ aux ++ after = (before ++ [restoreDiag]) ++ (aux ++ after) := by
      simp only [List.append_assoc]
    rw [this]
    apply allBefore_append_of
    · intro e he
      simp only [List.mem_append, List.mem_singleton] at he
      rcases he with he | rfl
      · exact (hbefore e he).2.2
      · exact hr.2.2.1
    · intro e he
      rcases List.mem_append.mp he with he | he
      · exact (haux e he).1
      · exact (hafter e he).1
  · apply allBefore_append_of
    · intro e he
      simp only [List.mem_append, List.mem_singleton] at he
      rcases he with (he | rfl) | he
      · exact (hbefore e he).2.2
      · exact hr.2.2.1
      · exact (haux e he).2.2.1
    · exact fun e he => (hafter e he).2.1
  · rw [List.filter_append, List.filter_append, List.filter_append,
      filter_nil_of isRestore _ (fun e he => (hbefore e he).1),
      filter_nil_of isRestore _ (fun e he => (haux e he).1),
      filter_nil_of isRestore _ (fun e he => (hafter e he).1)]
    rfl
  · rw [List.filter_append, List.filter_append, List.filter_append,
      filter_nil_of isCpModemLog _ (fun e he => (hbefore e he).2.1),
      List.filter_eq_self.mpr (fun e he => (haux e he).2.1),
      filter_nil_of isCpModemLog _ (fun e he => (hafter e he).2.1)]
    simp [List.filter_cons, hr.2.1]
  · obtain ⟨x, rest, rfl⟩ := List.exists_cons_of_ne_nil hne
    have : before ++ [restoreDiag] ++ (x :: rest) ++ after =
        before ++ restoreDiag :: (x :: rest ++ after) := by
      simp only [List.append_assoc, List.singleton_append, List.cons_append, List.nil_append]
    rw [this]
    exact allBefore_false_of _ _ _ _ restoreDiag x hr.1 (List.mem_cons_self _ _)
      (haux x (List.mem_cons_self _ _)).2.1

/-- C6, as the code has it. In a run of `dumpModem` that takes the diag-log branch with the
logger initially running, the steps occur in the order stop and wait, diag-log scan, restore,
auxiliary-log aggregation, then (for a non-empty prefix) archive, streaming and cleanup.  The
restore of the command property to `"true"` happens once, after every copy command of the diag
logs, before every copy command of the auxiliary logs (there are nine) and before the cleanup
removals; the copies of the auxiliary logs also precede the removals.  The run returns once its
copy loop has ended. -/
theorem dumpModem_step_order (env : Env) (fd fdModem : Int)
    (hbranch : diagBranchTaken env = true) (hstarted : env.mdlogStatus 0 = true) :
    (∀ n fuel, loopEndsAt env n → n < fuel → (dumpModem fuel env fd fdModem).isSome = true) ∧
    (∀ fuel trace, dumpModem fuel env fd fdModem = some trace →
      (∃ archived, trace = head env fd ++
          ([Event.GetBoolProperty DIAG_MDLOG_STATUS_PROPERTY false true,
              Event.SetProperty DIAG_MDLOG_PROPERTY "false"] ++
            pollLoop env.mdlogStatus 30 1) ++
          dumpDiagLogs env.scandirResult env.maxFileNum fd diagLogDir
            (modemLogAllDir env.modemLogDir) ++
          [Event.SetProperty DIAG_MDLOG_PROPERTY "true"] ++
          copyRilAndNetmgrLogs fd env.modemLogDir ++
          ([Event.GetProperty MODEM_LOG_PREFIX_PROPERTY "" env.filePrefix] ++ archived) ∧
        (archived = [] ∨ ∃ copied, archived = archive env fd env.modemLogDir env.filePrefix ++
          copied ++ cleanup fd env.modemLogDir env.filePrefix)) ∧
      allBefore isCpDiagLog isRestore trace = true ∧
      allBefore isRestore isCpModemLog trace = true ∧
      allBefore isRestore isRemoval trace = true ∧
      allBefore isCpModemLog isRemoval trace = true ∧
      (trace.filter isRestore).length = 1 ∧
      (trace.filter isCpModemLog).length = 9 ∧
      allBefore isCpModemLog isRestore trace = false) := by
  refine ⟨fun n fuel hends hfuel => dumpModem_returns env fd fdModem n fuel hends hfuel, ?_⟩
  intro fuel trace hrun
  obtain ⟨archived, rfl, harch, hcp, hshape⟩ :=
    dumpModem_diag fuel env fd fdModem trace hbranch hrun
  have heq : head env fd ++ diagLogBranch env fd env.modemLogDir ++
      (copyRilAndNetmgrLogs fd env.modemLogDir ++
        [Event.GetProperty MODEM_LOG_PREFIX_PROPERTY "" env.filePrefix] ++ archived) =
      (head env fd ++
        ([Event.GetBoolProperty DIAG_MDLOG_STATUS_PROPERTY false true,
            Event.SetProperty DIAG_MDLOG_PROPERTY "false"] ++
          pollLoop env.mdlogStatus 30 1) ++
        dumpDiagLogs env.scandirResult env.maxFileNum fd diagLogDir
          (modemLogAllDir env.modemLogDir)) ++
        [restoreDiag] ++ copyRilAndNetmgrLogs fd env.modemLogDir ++
        ([Event.GetProperty MODEM_LOG_PREFIX_PROPERTY "" env.filePrefix] ++ archived) := by
    simp only [diagLogBranch, hstarted, restoreDiag, if_true, List.append_assoc,
      List.singleton_append, List.cons_append, List.nil_append]
  have hbefore : ∀ e ∈ head env fd ++
      ([Event.GetBoolProperty DIAG_MDLOG_STATUS_PROPERTY false true,
          Event.SetProperty DIAG_MDLOG_PROPERTY "false"] ++
        pollLoop env.mdlogStatus 30 1) ++
      dumpDiagLogs env.scandirResult env.maxFileNum fd diagLogDir
        (modemLogAllDir env.modemLogDir),
      isRestore e = false ∧ isCpModemLog e = false ∧ isRemoval e = false := by
    intro e he
    simp only [List.mem_append, List.mem_cons, List.mem_singleton, List.not_mem_nil,
      or_false] at he
    rcases he with (he | (rfl | rfl) | he) | he
    · have := head_calls env fd e he
      exact ⟨(isDiagControl_false e this.1).2.2.2, this.2.1, this.2.2.2⟩
    · exact ⟨rfl, rfl, rfl⟩
    · exact ⟨by decide, rfl, rfl⟩
    · rcases pollLoop_calls _ _ _ e he with ⟨v, rfl⟩ | rfl <;> exact ⟨rfl, rfl, rfl⟩
    · have := dumpDiagLogs_quiet _ _ _ _ _ e he
      exact ⟨(isDiagControl_false e this.1).2.2.2, this.2.1, this.2.2⟩
  have haux : ∀ e ∈ copyRilAndNetmgrLogs fd env.modemLogDir,
      isRestore e = false ∧ isCpModemLog e = true ∧ isRemoval e = false ∧
        isCpDiagLog e = false := by
    intro e he
    simp only [copyRilAndNetmgrLogs, List.mem_map] at he
    obtain ⟨f, -, rfl⟩ := he
    exact ⟨rfl, rfl, rfl, rfl⟩
  have hafter : ∀ e ∈ [Event.GetProperty MODEM_LOG_PREFIX_PROPERTY "" env.filePrefix] ++
      archived, isRestore e = false ∧ isCpModemLog e = false ∧ isCpDiagLog e = false := by
    intro e he
    simp only [List.mem_append, List.mem_singleton] at he
    rcases he with rfl | he
    · exact ⟨rfl, rfl, rfl⟩
    · exact ⟨(isDiagControl_false e (harch e he)).2.2.2, (hcp e he).1, (hcp e he).2⟩
  have horder := order_of_shape _ _ _ hbefore haux hafter (by simp [copyRilAndNetmgrLogs,
    rilAndNetmgrLogs])
  rw [heq]
  refine ⟨⟨archived, ?_, hshape⟩, horder.1, horder.2.1, horder.2.2.1, horder.2.2.2.1,
    horder.2.2.2.2.1, ?_, horder.2.2.2.2.2.2⟩
  · simp only [restoreDiag, List.append_assoc]
  · rw [horder.2.2.2.2.2.1]
    rfl

/-- The order of the steps on `exampleEnv`: the run returns with fuel `3`, and its restore
comes before the copies of the auxiliary logs. -/
theorem dumpModem_step_order_witness :
    ∃ trace, dumpModem 3 exampleEnv 3 4 = some trace ∧
      allBefore isRestore isCpModemLog trace = true ∧
      allBefore isRestore isRemoval trace = true := by
  have h := dumpModem_step_order exampleEnv 3 4 (by decide) (by decide)
  obtain ⟨trace, hrun⟩ := Option.isSome_iff_exists.mp
    (h.1 2 3 ⟨by decide, by decide⟩ (by decide))
  exact ⟨trace, hrun, (h.2 3 trace hrun).2.2.1, (h.2 3 trace hrun).2.2.2.1⟩

/-- C6, as stated, fails: on `exampleEnv` (diag-log branch, logger initially running) the run
returns, and it is not the case that every copy command of the auxiliary logs comes before the
restore: the restore is followed by copies of auxiliary logs. -/
theorem dumpModem_restore_after_aux_fails :
    (dumpModem 3 exampleEnv 3 4).map (allBefore isCpModemLog isRestore) = some false := by
  decide

/-! ## `dumpstateBoard` -/

theorem boardDumps_no_modem (env : Env) (fd : Int) :
    ∀ e ∈ boardDumps env fd, isLogLocRead e = false := by
  have h : (boardDumps env fd).all (fun e => !isLogLocRead e) = true := by
    simp only [boardDumps, DumpTouch, List.all_append, List.all_cons, List.all_nil, isLogLocRead,
      Bool.and_true, Bool.not_false, Bool.true_and, Bool.and_eq_true]
    refine ⟨⟨by decide, ?_⟩, ?_, ?_⟩ <;> (split <;> rfl)
  intro e he
  have := List.all_eq_true.mp h e he
  simpa using this

/-- Every run of `dumpModem` starts with the read of the log location property. -/
theorem dumpModem_first_call (fuel : Nat) (env : Env) (fd fdModem : Int) (trace : List Event)
    (hrun : dumpModem fuel env fd fdModem = some trace) :
    ∃ rest, trace = Event.GetProperty MODEM_LOG_LOC_PROPERTY "" env.modemLogDir :: rest := by
  cases hgate : gatePassed env with
  | false =>
    rw [dumpModem_skipped fuel env fd fdModem hgate] at hrun
    cases hrun
    split
    · exact ⟨[], rfl⟩
    · exact ⟨_, rfl⟩
  | true =>
    obtain ⟨archived, rfl, -⟩ := dumpModem_tail fuel env fd fdModem trace hgate hrun
    exact ⟨_, rfl⟩

/-- C10. Entry point `dumpstateBoard`: for a null handle, a handle without descriptor, or a
negative first descriptor it returns without any call (no file dump, no command, no modem
collection).  For a handle with one valid descriptor it returns the dumps of `boardDumps` on
that descriptor and nothing else; `dumpModem`, whose every run starts with the read of the log
location property, is not run, as no call of `boardDumps` is that read.  For a handle with two
descriptors or more the calls are those of `dumpModem` on the first two descriptors followed
by the same dumps on the first descriptor. -/
theorem dumpstateBoard_handles (env : Env) (fuel : Nat) :
    dumpstateBoard fuel env none = some [] ∧
    (∀ ints, dumpstateBoard fuel env (some ⟨[], ints⟩) = some []) ∧
    (∀ fd more ints, fd < 0 → dumpstateBoard fuel env (some ⟨fd :: more, ints⟩) = some []) ∧
    (∀ fd ints, 0 ≤ fd →
      dumpstateBoard fuel env (some ⟨[fd], ints⟩) = some (boardDumps env fd) ∧
      (∀ e ∈ boardDumps env fd, isLogLocRead e = false) ∧
      (∀ fdModem trace, dumpModem fuel env fd fdModem = some trace →
        ∃ first rest, trace = first :: rest ∧ isLogLocRead first = true)) ∧
    (∀ fd fdModem more ints, 0 ≤ fd →
      dumpstateBoard fuel env (some ⟨fd :: fdModem :: more, ints⟩) =
        (dumpModem fuel env fd fdModem).map (· ++ boardDumps env fd)) := by
  refine ⟨rfl, fun _ => rfl, ?_, ?_, ?_⟩
  · intro fd more ints hfd
    simp [dumpstateBoard, hfd]
  · intro fd ints hfd
    refine ⟨by simp [dumpstateBoard, not_lt.mpr hfd], boardDumps_no_modem env fd, ?_⟩
    intro fdModem trace hrun
    obtain ⟨rest, rfl⟩ := dumpModem_first_call fuel env fd fdModem trace hrun
    exact ⟨_, rest, rfl, by simp [isLogLocRead]⟩
  · intro fd fdModem more ints hfd
    simp [dumpstateBoard, not_lt.mpr hfd]

/-- The entry point for the handle with the single descriptor `3`. -/
theorem dumpstateBoard_handles_witness :
    dumpstateBoard 0 exampleEnv (some ⟨[3], []⟩) = some (boardDumps exampleEnv 3) :=
  ((dumpstateBoard_handles exampleEnv 0).2.2.2.1 3 [] (by decide)).1

end DumpstateDevice
